import Mathlib

/-!
Shallow embedding of the World Cup 2026 strength-of-schedule repository:
`lib/sosCalculator.js`, the bracket-aware tournament simulator
(`lib/bracketSimulator.js`, second half of the concatenated unnamed source)
and the front-end interactive bracket engine (`app.js`).

JavaScript numbers are modelled as exact reals (`ℝ`) wherever the
transcendental Elo formula `10^(x/400)` appears, and as rationals (`ℚ`)
for data that only ever holds integers and decimal literals.
`Array.prototype.sort(cmp)` is modelled as the stable insertion sort with
the relation `cmp a b ≤ 0`: the ECMAScript specification requires a stable
sort consistent with the comparator, and for the consistent comparators
used by this repository that is exactly this list.
-/

namespace WorldCupSoS

/-- JS `Array.prototype.sort(cmp)`: stable sort that keeps `a` before `b`
whenever `cmp a b ≤ 0` (i.e. an element moves past another only when the
comparator strictly orders it later). -/
def jsSort {α β : Type} [LinearOrder β] [Zero β] (cmp : α → α → β) (l : List α) : List α :=
  @List.insertionSort α (fun a b => cmp a b ≤ 0)
    (fun a b => inferInstanceAs (Decidable (cmp a b ≤ 0))) l

theorem jsSort_perm {α β : Type} [LinearOrder β] [Zero β] (cmp : α → α → β) (l : List α) :
    List.Perm (jsSort cmp l) l :=
  List.perm_insertionSort _ l

theorem jsSort_sorted {α β : Type} [LinearOrder β] [Zero β] (cmp : α → α → β)
    (htot : ∀ a b, cmp a b ≤ 0 ∨ cmp b a ≤ 0)
    (htr : ∀ a b c, cmp a b ≤ 0 → cmp b c ≤ 0 → cmp a c ≤ 0)
    (l : List α) : (jsSort cmp l).Sorted (fun a b => cmp a b ≤ 0) := by
  haveI : IsTotal α (fun a b => cmp a b ≤ 0) := ⟨htot⟩
  haveI : IsTrans α (fun a b => cmp a b ≤ 0) := ⟨fun a b c => htr a b c⟩
  exact List.sorted_insertionSort _ l

/-! ### Rating model (`lib/sosCalculator.js`, `eloWinProbability`) -/

/-- `eloWinProbability(rating1, rating2)` from `lib/sosCalculator.js`:
`1 / (1 + Math.pow(10, (rating2 - rating1) / 400))`. -/
noncomputable def eloWinProbability (rating1 rating2 : ℝ) : ℝ :=
  1 / (1 + (10 : ℝ) ^ ((rating2 - rating1) / 400))

theorem eloWinProbability_pos (a b : ℝ) : 0 < eloWinProbability a b := by
  unfold eloWinProbability
  have hy : (0 : ℝ) < (10 : ℝ) ^ ((b - a) / 400) :=
    Real.rpow_pos_of_pos (by norm_num) _
  positivity

/-- The two win probabilities of a pairing are complementary. -/
theorem eloWinProbability_compl (a b : ℝ) :
    eloWinProbability b a = 1 - eloWinProbability a b := by
  unfold eloWinProbability
  have hx : (a - b) / 400 = -((b - a) / 400) := by ring
  rw [hx, Real.rpow_neg (by norm_num : (0:ℝ) ≤ 10)]
  have hy : (0 : ℝ) < (10 : ℝ) ^ ((b - a) / 400) :=
    Real.rpow_pos_of_pos (by norm_num) _
  set y := (10 : ℝ) ^ ((b - a) / 400) with hydef
  have h1 : y ≠ 0 := ne_of_gt hy
  have h2 : 1 + y ≠ 0 := by positivity
  rw [show (1 : ℝ) + y⁻¹ = (1 + y) / y by rw [inv_eq_one_div]; field_simp; ring]
  rw [one_div_div]
  have key : y / (1 + y) + 1 / (1 + y) = 1 := by
    rw [div_add_div_same, add_comm]
    exact div_self h2
  linarith [key]

/-! ### Closed-form playoff resolvers (`lib/sosCalculator.js`) -/

/-- A `{ code, elo, prob }` row of the resolvers' `teams` output. -/
structure TeamProb where
  code : String
  elo : ℝ
  prob : ℝ

/-- A `{ code, elo }` row of `simulateUEFAPath`'s `teamElos`. -/
structure TeamElo where
  code : String
  elo : ℝ

/-- JS `ratings[code] || 1400`: a missing rating, or a rating of `0`
(falsy in JS), falls back to `1400`. -/
noncomputable def ratingOr1400 (ratings : String → Option ℝ) (code : String) : ℝ :=
  match ratings code with
  | some r => if r = 0 then 1400 else r
  | none => 1400

/-- JS `Math.round` (round half toward positive infinity). -/
noncomputable def jsRound (x : ℝ) : ℤ := ⌊x + 1 / 2⌋

/-- Result shape of `simulateBracket`. -/
structure BracketSim where
  expectedElo : ℤ
  minElo : ℝ
  maxElo : ℝ
  teams : List TeamProb

/-- `simulateBracket(bracket, ratings)` from `lib/sosCalculator.js` for the
3-team playoff bracket `{ seeded, unseeded: [unseeded1, unseeded2] }`. -/
noncomputable def simulateBracket (seeded unseeded1 unseeded2 : String)
    (ratings : String → Option ℝ) : BracketSim :=
  let seededElo := ratingOr1400 ratings seeded
  let team1Elo := ratingOr1400 ratings unseeded1
  let team2Elo := ratingOr1400 ratings unseeded2
  let team1WinProb := eloWinProbability team1Elo team2Elo
  let semifinalWinnerElo := team1WinProb * team1Elo + (1 - team1WinProb) * team2Elo
  let seededWinProb := eloWinProbability seededElo semifinalWinnerElo
  let expectedWinnerElo := seededWinProb * seededElo + (1 - seededWinProb) * semifinalWinnerElo
  let teamProbs : List TeamProb :=
    [⟨seeded, seededElo, seededWinProb⟩,
     ⟨unseeded1, team1Elo, (1 - seededWinProb) * team1WinProb⟩,
     ⟨unseeded2, team2Elo, (1 - seededWinProb) * (1 - team1WinProb)⟩]
  { expectedElo := jsRound expectedWinnerElo
    minElo := min seededElo (min team1Elo team2Elo)
    maxElo := max seededElo (max team1Elo team2Elo)
    teams := jsSort (fun a b => b.prob - a.prob) teamProbs }

/-- Result shape of `simulateUEFAPath` (`minElo`/`maxElo` are `none` in the
degenerate empty case where JS `Math.min()` would give `Infinity`). -/
structure PathSim where
  expectedElo : ℤ
  minElo : Option ℝ
  maxElo : Option ℝ
  teams : List TeamProb

/-- `simulateUEFAPath(path, ratings)` from `lib/sosCalculator.js` for the
4-team path `{ teams: [code1, code2, code3, code4] }`: teams are seeded by
rating, semifinals pair rank1×rank4 and rank2×rank3, and each team's win
probability enumerates both possible final opponents. -/
noncomputable def simulateUEFAPath (code1 code2 code3 code4 : String)
    (ratings : String → Option ℝ) : PathSim :=
  let teamElos : List TeamElo :=
    [code1, code2, code3, code4].map (fun code => ⟨code, ratingOr1400 ratings code⟩)
  match jsSort (fun a b : TeamElo => b.elo - a.elo) teamElos with
  | t1 :: t2 :: t3 :: t4 :: _ =>
    let sf1_t1Win := eloWinProbability t1.elo t4.elo
    let sf2_t2Win := eloWinProbability t2.elo t3.elo
    let t1WinsProb := sf1_t1Win * (sf2_t2Win * eloWinProbability t1.elo t2.elo +
      (1 - sf2_t2Win) * eloWinProbability t1.elo t3.elo)
    let t4WinsProb := (1 - sf1_t1Win) * (sf2_t2Win * eloWinProbability t4.elo t2.elo +
      (1 - sf2_t2Win) * eloWinProbability t4.elo t3.elo)
    let t2WinsProb := sf2_t2Win * (sf1_t1Win * eloWinProbability t2.elo t1.elo +
      (1 - sf1_t1Win) * eloWinProbability t2.elo t4.elo)
    let t3WinsProb := (1 - sf2_t2Win) * (sf1_t1Win * eloWinProbability t3.elo t1.elo +
      (1 - sf1_t1Win) * eloWinProbability t3.elo t4.elo)
    let teamProbs : List TeamProb :=
      [⟨t1.code, t1.elo, t1WinsProb⟩, ⟨t2.code, t2.elo, t2WinsProb⟩,
       ⟨t3.code, t3.elo, t3WinsProb⟩, ⟨t4.code, t4.elo, t4WinsProb⟩]
    { expectedElo := jsRound (teamProbs.foldl (fun s t => s + t.elo * t.prob) 0)
      minElo := (teamElos.map TeamElo.elo).min?
      maxElo := (teamElos.map TeamElo.elo).max?
      teams := jsSort (fun a b => b.prob - a.prob) teamProbs }
  | _ => ⟨0, none, none, []⟩

/-- The `prob` entries of all rows of `l` whose `code` is `code`, summed
(for a list with a unique row per code this is that row's probability; it
is invariant under the final sort of the resolvers). -/
noncomputable def probOf (code : String) (l : List TeamProb) : ℝ :=
  ((l.filter (fun t => t.code = code)).map TeamProb.prob).sum

theorem probOf_perm (code : String) {l₁ l₂ : List TeamProb} (h : List.Perm l₁ l₂) :
    probOf code l₁ = probOf code l₂ := by
  unfold probOf
  exact List.Perm.sum_eq (List.Perm.map _ (h.filter _))

/-- C1: for every 3-team playoff bracket and every rating map the three
win probabilities returned by `simulateBracket` sum exactly to 1, and for
every 4-team playoff path the four win probabilities returned by
`simulateUEFAPath` sum exactly to 1 — exact real arithmetic, no sampling. -/
theorem c1_closed_form_resolver_probs_sum_to_one :
    (∀ seeded unseeded1 unseeded2 ratings,
      ((simulateBracket seeded unseeded1 unseeded2 ratings).teams.map TeamProb.prob).sum = 1) ∧
    (∀ code1 code2 code3 code4 ratings,
      ((simulateUEFAPath code1 code2 code3 code4 ratings).teams.map TeamProb.prob).sum = 1) := by
  constructor
  · intro seeded unseeded1 unseeded2 ratings
    simp only [simulateBracket]
    rw [List.Perm.sum_eq (List.Perm.map _ (jsSort_perm _ _))]
    simp only [List.map_cons, List.map_nil, List.sum_cons, List.sum_nil]
    ring
  · intro code1 code2 code3 code4 ratings
    simp only [simulateUEFAPath]
    have hperm := jsSort_perm (fun a b : TeamElo => b.elo - a.elo)
      ([code1, code2, code3, code4].map (fun code => ⟨code, ratingOr1400 ratings code⟩))
    have hlen : (jsSort (fun a b : TeamElo => b.elo - a.elo)
        ([code1, code2, code3, code4].map
          (fun code => ⟨code, ratingOr1400 ratings code⟩))).length = 4 := by
      rw [hperm.length_eq]; simp
    rcases hl : jsSort (fun a b : TeamElo => b.elo - a.elo)
        ([code1, code2, code3, code4].map (fun code => ⟨code, ratingOr1400 ratings code⟩)) with
      _ | ⟨t1, _ | ⟨t2, _ | ⟨t3, _ | ⟨t4, rest⟩⟩⟩⟩ <;>
      rw [hl] at hlen <;> simp at hlen
    simp only
    rw [List.Perm.sum_eq (List.Perm.map _ (jsSort_perm _ _))]
    simp only [List.map_cons, List.map_nil, List.sum_cons, List.sum_nil]
    rw [eloWinProbability_compl t2.elo t1.elo, eloWinProbability_compl t3.elo t1.elo,
      eloWinProbability_compl t4.elo t2.elo, eloWinProbability_compl t4.elo t3.elo]
    ring

/-! ### Three-outcome match model (`getMatchProbabilities`, identical in
`lib/sosCalculator.js` and `lib/bracketSimulator.js`) -/

/-- The `{ winProb, drawProb, lossProb }` record.  `drawProb` is a rational
(the source computes it from decimal literals only); the win/loss entries
involve the transcendental win expectancy and live in `ℝ`. -/
structure MatchProbs where
  winProb : ℝ
  drawProb : ℚ
  lossProb : ℝ

/-- `getMatchProbabilities(teamElo, oppElo)`. -/
noncomputable def getMatchProbabilities (teamElo oppElo : ℚ) : MatchProbs :=
  let winExpectancy : ℝ := 1 / (1 + (10 : ℝ) ^ (((oppElo : ℝ) - (teamElo : ℝ)) / 400))
  let eloDiff : ℚ := |teamElo - oppElo|
  let drawProb : ℚ := max (15 / 100) (27 / 100 - eloDiff * (4 / 10000))
  { winProb := winExpectancy * (1 - (drawProb : ℝ))
    drawProb := drawProb
    lossProb := (1 - winExpectancy) * (1 - (drawProb : ℝ)) }

/-- C5: `getMatchProbabilities` returns exactly the Elo-based win
expectancy redistributed over three outcomes — the win, draw and loss
formulas of the specification — the three probabilities always sum to 1,
and at ratings 2000 vs 1500 the draw probability is exactly 0.15. -/
theorem c5_match_outcome_probabilities :
    (∀ teamElo oppElo : ℚ,
      (getMatchProbabilities teamElo oppElo).winProb =
        (1 / (1 + (10 : ℝ) ^ (((oppElo : ℝ) - (teamElo : ℝ)) / 400))) *
          (1 - ((max (15 / 100) (27 / 100 - |teamElo - oppElo| * (4 / 10000)) : ℚ) : ℝ)) ∧
      (getMatchProbabilities teamElo oppElo).drawProb =
        max (15 / 100) (27 / 100 - |teamElo - oppElo| * (4 / 10000)) ∧
      (getMatchProbabilities teamElo oppElo).lossProb =
        (1 - 1 / (1 + (10 : ℝ) ^ (((oppElo : ℝ) - (teamElo : ℝ)) / 400))) *
          (1 - ((max (15 / 100) (27 / 100 - |teamElo - oppElo| * (4 / 10000)) : ℚ) : ℝ)) ∧
      (getMatchProbabilities teamElo oppElo).winProb +
        ((getMatchProbabilities teamElo oppElo).drawProb : ℝ) +
        (getMatchProbabilities teamElo oppElo).lossProb = 1) ∧
    (getMatchProbabilities 2000 1500).drawProb = 15 / 100 := by
  refine ⟨fun teamElo oppElo => ⟨rfl, rfl, rfl, ?_⟩, ?_⟩
  · simp only [getMatchProbabilities]
    ring
  · simp only [getMatchProbabilities]
    norm_num

/-! ### C2: how `simulateBracket` actually computes the seeded team's
win probability -/

/-- The probabilities attached to the three participants of
`simulateBracket`, extracted by team code.  The seeded team's probability
is the win expectancy against the probability-weighted *expected Elo* of
the semifinal winner (not the weighted average of the win expectancies
against the two possible winners). -/
theorem simulateBracket_probOf (seeded unseeded1 unseeded2 : String)
    (ratings : String → Option ℝ)
    (h1 : seeded ≠ unseeded1) (h2 : seeded ≠ unseeded2) (h3 : unseeded1 ≠ unseeded2) :
    probOf seeded (simulateBracket seeded unseeded1 unseeded2 ratings).teams =
      eloWinProbability (ratingOr1400 ratings seeded)
        (eloWinProbability (ratingOr1400 ratings unseeded1) (ratingOr1400 ratings unseeded2) *
            ratingOr1400 ratings unseeded1 +
          (1 - eloWinProbability (ratingOr1400 ratings unseeded1)
              (ratingOr1400 ratings unseeded2)) * ratingOr1400 ratings unseeded2) ∧
    probOf unseeded1 (simulateBracket seeded unseeded1 unseeded2 ratings).teams =
      (1 - probOf seeded (simulateBracket seeded unseeded1 unseeded2 ratings).teams) *
        eloWinProbability (ratingOr1400 ratings unseeded1) (ratingOr1400 ratings unseeded2) ∧
    probOf unseeded2 (simulateBracket seeded unseeded1 unseeded2 ratings).teams =
      (1 - probOf seeded (simulateBracket seeded unseeded1 unseeded2 ratings).teams) *
        (1 - eloWinProbability (ratingOr1400 ratings unseeded1)
          (ratingOr1400 ratings unseeded2)) := by
  set es := ratingOr1400 ratings seeded with hes
  set e1 := ratingOr1400 ratings unseeded1 with he1
  set e2 := ratingOr1400 ratings unseeded2 with he2
  set p := eloWinProbability e1 e2 with hp
  set s := eloWinProbability es (p * e1 + (1 - p) * e2) with hs
  have hteams : ∀ code, probOf code (simulateBracket seeded unseeded1 unseeded2 ratings).teams =
      probOf code
        [⟨seeded, es, s⟩, ⟨unseeded1, e1, (1 - s) * p⟩, ⟨unseeded2, e2, (1 - s) * (1 - p)⟩] := by
    intro code
    exact probOf_perm code (jsSort_perm _ _)
  rw [hteams seeded, hteams unseeded1, hteams unseeded2]
  simp only [probOf, List.filter_cons, List.filter_nil, decide_eq_true_eq]
  simp only [if_true, if_neg (Ne.symm h1), if_neg (Ne.symm h2), if_neg h1,
    if_neg (Ne.symm h3), if_neg h2, if_neg h3, List.map_cons, List.map_nil,
    List.sum_cons, List.sum_nil, add_zero]
  refine ⟨by ring, by ring, by ring⟩

/-- The concrete rating map of the C2 counterexample: seeded team `"S"`
rated 1400, unseeded teams `"U"` rated 1800 and `"V"` rated 1400. -/
noncomputable def c2ratings : String → Option ℝ := fun code =>
  if code = "S" then some 1400 else if code = "U" then some 1800 else
  if code = "V" then some 1400 else none

/-- C2 (amended): in `simulateBracket` the seeded team's win probability
is `knockoutWinProbability(S, E)` where `E` is the probability-weighted
*expected Elo* of the semifinal winner (`E = p·U1 + (1−p)·U2` with
`p = knockoutWinProbability(U1, U2)`), not the weighted average of the win
probabilities over the two semifinal outcomes; the unseeded teams' win
probabilities are `(1−that)·p` and `(1−that)·(1−p)`. -/
theorem c2_seeded_prob_uses_expected_semifinal_elo (seeded unseeded1 unseeded2 : String)
    (ratings : String → Option ℝ)
    (h1 : seeded ≠ unseeded1) (h2 : seeded ≠ unseeded2) (h3 : unseeded1 ≠ unseeded2) :
    probOf seeded (simulateBracket seeded unseeded1 unseeded2 ratings).teams =
      eloWinProbability (ratingOr1400 ratings seeded)
        (eloWinProbability (ratingOr1400 ratings unseeded1) (ratingOr1400 ratings unseeded2) *
            ratingOr1400 ratings unseeded1 +
          (1 - eloWinProbability (ratingOr1400 ratings unseeded1)
              (ratingOr1400 ratings unseeded2)) * ratingOr1400 ratings unseeded2) ∧
    probOf unseeded1 (simulateBracket seeded unseeded1 unseeded2 ratings).teams =
      (1 - probOf seeded (simulateBracket seeded unseeded1 unseeded2 ratings).teams) *
        eloWinProbability (ratingOr1400 ratings unseeded1) (ratingOr1400 ratings unseeded2) ∧
    probOf unseeded2 (simulateBracket seeded unseeded1 unseeded2 ratings).teams =
      (1 - probOf seeded (simulateBracket seeded unseeded1 unseeded2 ratings).teams) *
        (1 - eloWinProbability (ratingOr1400 ratings unseeded1)
          (ratingOr1400 ratings unseeded2)) :=
  simulateBracket_probOf seeded unseeded1 unseeded2 ratings h1 h2 h3

/-- Witness for C2 (amended) at the concrete bracket `"S"` / `"U"` / `"V"`
with the `c2ratings` map. -/
theorem c2_seeded_prob_uses_expected_semifinal_elo_witness :
    ("S" : String) ≠ "U" ∧ ("S" : String) ≠ "V" ∧ ("U" : String) ≠ "V" ∧
    probOf "S" (simulateBracket "S" "U" "V" c2ratings).teams =
      eloWinProbability (ratingOr1400 c2ratings "S")
        (eloWinProbability (ratingOr1400 c2ratings "U") (ratingOr1400 c2ratings "V") *
            ratingOr1400 c2ratings "U" +
          (1 - eloWinProbability (ratingOr1400 c2ratings "U")
              (ratingOr1400 c2ratings "V")) * ratingOr1400 c2ratings "V") :=
  ⟨by decide, by decide, by decide,
    (c2_seeded_prob_uses_expected_semifinal_elo "S" "U" "V" c2ratings
      (by decide) (by decide) (by decide)).1⟩

/-- C2 (counterexample): at ratings S = 1400, U1 = 1800, U2 = 1400 the
seeded team's win probability returned by `simulateBracket` is *not*
`P(U1 wins the semifinal)·k(S,U1) + P(U2 wins the semifinal)·k(S,U2)`
(the code value is `1/(1+10^(10/11)) ≈ 0.0948`, the claimed formula gives
`31/242 ≈ 0.1281`). -/
theorem c2_counterexample :
    probOf "S" (simulateBracket "S" "U" "V" c2ratings).teams ≠
      eloWinProbability 1800 1400 * eloWinProbability 1400 1800 +
      (1 - eloWinProbability 1800 1400) * eloWinProbability 1400 1400 := by
  have hS : ratingOr1400 c2ratings "S" = 1400 := by
    unfold ratingOr1400 c2ratings
    norm_num
  have hU : ratingOr1400 c2ratings "U" = 1800 := by
    unfold ratingOr1400 c2ratings
    rw [if_neg (by decide : ¬("U" : String) = "S")]
    norm_num
  have hV : ratingOr1400 c2ratings "V" = 1400 := by
    unfold ratingOr1400 c2ratings
    rw [if_neg (by decide : ¬("V" : String) = "S"), if_neg (by decide : ¬("V" : String) = "U")]
    norm_num
  obtain ⟨hSprob, -, -⟩ := simulateBracket_probOf "S" "U" "V" c2ratings
    (by decide) (by decide) (by decide)
  rw [hSprob, hS, hU, hV]
  have e_UV : eloWinProbability 1800 1400 = 10 / 11 := by
    unfold eloWinProbability
    rw [show ((1400 : ℝ) - 1800) / 400 = -1 by norm_num, Real.rpow_neg_one]
    norm_num
  have e_SU : eloWinProbability 1400 1800 = 1 / 11 := by
    unfold eloWinProbability
    rw [show ((1800 : ℝ) - 1400) / 400 = 1 by norm_num, Real.rpow_one]
    norm_num
  have e_SS : eloWinProbability 1400 1400 = 1 / 2 := by
    unfold eloWinProbability
    rw [show ((1400 : ℝ) - 1400) / 400 = 0 by norm_num, Real.rpow_zero]
    norm_num
  rw [e_UV, e_SU, e_SS]
  rw [show (10 / 11 : ℝ) * 1800 + (1 - 10 / 11) * 1400 = 19400 / 11 by norm_num]
  rw [show (10 / 11 : ℝ) * (1 / 11) + (1 - 10 / 11) * (1 / 2) = 31 / 242 by norm_num]
  unfold eloWinProbability
  rw [show ((19400 / 11 : ℝ) - 1400) / 400 = 10 / 11 by norm_num]
  intro hEq
  set y := (10 : ℝ) ^ ((10 : ℝ) / 11) with hy
  have hypos : 0 < y := Real.rpow_pos_of_pos (by norm_num) _
  have hsum : 1 + y ≠ 0 := by positivity
  have h211 : y = 211 / 31 := by
    field_simp at hEq
    linarith [hEq]
  have hpow : y ^ (11 : ℕ) = (10 : ℝ) ^ (10 : ℕ) := by
    rw [hy, ← Real.rpow_natCast ((10 : ℝ) ^ ((10 : ℝ) / 11)) 11,
      ← Real.rpow_mul (by norm_num : (0 : ℝ) ≤ 10)]
    rw [show ((10 : ℝ) / 11) * ((11 : ℕ) : ℝ) = ((10 : ℕ) : ℝ) by push_cast; norm_num]
    rw [Real.rpow_natCast]
  rw [h211, div_pow] at hpow
  have h31 : ((31 : ℝ)) ^ (11 : ℕ) ≠ 0 := by positivity
  field_simp at hpow
  norm_num at hpow

/-! ### Group Monte Carlo simulator (`lib/sosCalculator.js`,
`simulateGroupMonteCarlo`).  `Math.random()` is modelled as an injected
random tape `tape : ℕ → ℚ` read at an advancing cursor. -/

/-- The three outcomes of `simulateMatch`. -/
inductive MatchResult where
  | win
  | draw
  | loss
deriving DecidableEq

/-- `simulateMatch(teamElo, oppElo)` from `lib/sosCalculator.js` (the
bracket simulator's `simulateGroupMatch` is literally the same code):
one random draw classified against win/draw thresholds. -/
noncomputable def simulateMatch (teamElo oppElo : ℚ) (rand : ℚ) : MatchResult :=
  let p := getMatchProbabilities teamElo oppElo
  if (rand : ℝ) < p.winProb then .win
  else if (rand : ℝ) < p.winProb + (p.drawProb : ℝ) then .draw
  else .loss

/-- The pairing double loop `for i; for j = i+1` shared verbatim by
`simulateGroupMonteCarlo` (sosCalculator) and `simulateGroup`
(bracketSimulator). -/
def pairList {α : Type} : List α → List (α × α)
  | [] => []
  | x :: xs => xs.map (fun y => (x, y)) ++ pairList xs

/-- A `{ code, name, elo, isPlayoff }` input row of the group simulators. -/
structure SimTeam where
  code : String
  name : String
  elo : ℚ
  isPlayoff : Bool
deriving DecidableEq

/-- The per-iteration accumulators `simPoints`/`simWins`/`simDraws`/
`simLosses` of `simulateGroupMonteCarlo`, fused into one record. -/
structure IterStat where
  points : ℕ
  wins : ℕ
  draws : ℕ
  losses : ℕ
deriving DecidableEq

/-- Update one key of a keyed accumulator (JS `obj[code] op= ...`). -/
def bump {γ : Type} (f : String → γ) (c : String) (g : γ → γ) : String → γ :=
  fun x => if x = c then g (f x) else f x

/-- The `for (const [teamA, teamB] of matches)` loop of one Monte Carlo
iteration: one random draw per pairing, 3/1/0 points. -/
noncomputable def runGroupMatches (tape : ℕ → ℚ) :
    List (SimTeam × SimTeam) → ℕ → (String → IterStat) → (String → IterStat) × ℕ
  | [], k, acc => (acc, k)
  | (a, b) :: rest, k, acc =>
    let acc' :=
      match simulateMatch a.elo b.elo (tape k) with
      | .win =>
        bump (bump acc a.code
          (fun s => { s with points := s.points + 3, wins := s.wins + 1 }))
          b.code (fun s => { s with losses := s.losses + 1 })
      | .loss =>
        bump (bump acc b.code
          (fun s => { s with points := s.points + 3, wins := s.wins + 1 }))
          a.code (fun s => { s with losses := s.losses + 1 })
      | .draw =>
        bump (bump acc a.code
          (fun s => { s with points := s.points + 1, draws := s.draws + 1 }))
          b.code (fun s => { s with points := s.points + 1, draws := s.draws + 1 })
    runGroupMatches tape rest (k + 1) acc'

/-- A `{ code, points }` row of the per-iteration standings of
`simulateGroupMonteCarlo`. -/
structure MCRow where
  code : String
  points : ℕ
deriving DecidableEq

/-- The per-iteration standings of `simulateGroupMonteCarlo`:
`.sort((a, b) => b.points - a.points)` — points only, no goal-difference
tiebreak. -/
def mcStandings (teams : List SimTeam) (iter : String → IterStat) : List MCRow :=
  jsSort (fun a b : MCRow => (b.points : ℤ) - (a.points : ℤ))
    (teams.map (fun t => ⟨t.code, (iter t.code).points⟩))

/-- The cross-iteration accumulator of `simulateGroupMonteCarlo`
(`stats[code]`); `positions` is a JS array indexed by finishing position,
modelled as the index map it is (JS arrays are keyed objects, and an
out-of-range `positions[index]++` on a non-4-team group extends it rather
than failing). -/
structure TeamTotals where
  wins : ℕ
  draws : ℕ
  losses : ℕ
  points : ℕ
  positions : ℕ → ℕ

/-- The `teams.forEach` accumulation of one iteration's W/D/L/points. -/
def accTotals (teams : List SimTeam) (iter : String → IterStat)
    (tot : String → TeamTotals) : String → TeamTotals :=
  teams.foldl (fun acc t =>
    bump acc t.code (fun s =>
      { s with wins := s.wins + (iter t.code).wins,
               draws := s.draws + (iter t.code).draws,
               losses := s.losses + (iter t.code).losses,
               points := s.points + (iter t.code).points })) tot

/-- The `standings.forEach((team, index) => positions[index]++)`
accumulation. -/
def accPositions (standings : List MCRow) (tot : String → TeamTotals) :
    String → TeamTotals :=
  standings.enum.foldl (fun acc p =>
    bump acc p.2.code (fun s =>
      { s with positions := fun i => if i = p.1 then s.positions i + 1 else s.positions i }))
    tot

/-- One full iteration of the `for (let sim = 0; ...)` loop. -/
noncomputable def mcIteration (teams : List SimTeam) (tape : ℕ → ℚ) (k : ℕ)
    (tot : String → TeamTotals) : (String → TeamTotals) × ℕ :=
  let run := runGroupMatches tape (pairList teams) k (fun _ => ⟨0, 0, 0, 0⟩)
  (accPositions (mcStandings teams run.1) (accTotals teams run.1 tot), run.2)

/-- The iteration loop of `simulateGroupMonteCarlo`. -/
noncomputable def mcLoop (teams : List SimTeam) (tape : ℕ → ℚ) :
    ℕ → ℕ → (String → TeamTotals) → (String → TeamTotals) × ℕ
  | 0, k, tot => (tot, k)
  | n + 1, k, tot =>
    let step := mcIteration teams tape k tot
    mcLoop teams tape n step.2 step.1

/-- `8 / 12` — the fixed fraction of third-place teams that advance. -/
def THIRD_PLACE_QUALIFY_RATE : ℚ := 8 / 12

/-- `1650` — assumed average Round-of-32 opponent rating. -/
def AVG_R32_OPPONENT_ELO : ℚ := 1650

/-- An output row of `simulateGroupMonteCarlo`. -/
structure MCResult where
  code : String
  name : String
  elo : ℚ
  isPlayoff : Bool
  wins : ℚ
  draws : ℚ
  losses : ℚ
  points : ℚ
  pos1Prob : ℚ
  pos2Prob : ℚ
  pos3Prob : ℚ
  pos4Prob : ℚ
  qualifyProb : ℚ
  r16Prob : ℝ

/-- `simulateGroupMonteCarlo(teams, simulations)` from
`lib/sosCalculator.js`.  Note: the source performs *no* validation of
`teams.length`; it simply runs the round-robin over `pairList teams` and
returns one result row per input team. -/
noncomputable def simulateGroupMonteCarlo (teams : List SimTeam) (simulations : ℕ)
    (tape : ℕ → ℚ) : List MCResult :=
  let stats := (mcLoop teams tape simulations 0
    (fun _ => ⟨0, 0, 0, 0, fun _ => 0⟩)).1
  teams.map (fun team =>
    let s := stats team.code
    let pos1Prob : ℚ := (s.positions 0 : ℚ) / simulations
    let pos2Prob : ℚ := (s.positions 1 : ℚ) / simulations
    let pos3Prob : ℚ := (s.positions 2 : ℚ) / simulations
    let pos4Prob : ℚ := (s.positions 3 : ℚ) / simulations
    let qualifyProb : ℚ := pos1Prob + pos2Prob + pos3Prob * THIRD_PLACE_QUALIFY_RATE
    let r32WinProb : ℝ :=
      1 / (1 + (10 : ℝ) ^ (((AVG_R32_OPPONENT_ELO : ℝ) - (team.elo : ℝ)) / 400))
    { code := team.code, name := team.name, elo := team.elo, isPlayoff := team.isPlayoff
      wins := (s.wins : ℚ) / simulations
      draws := (s.draws : ℚ) / simulations
      losses := (s.losses : ℚ) / simulations
      points := (s.points : ℚ) / simulations
      pos1Prob := pos1Prob, pos2Prob := pos2Prob
      pos3Prob := pos3Prob, pos4Prob := pos4Prob
      qualifyProb := qualifyProb
      r16Prob := (qualifyProb : ℝ) * r32WinProb })

/-- C9 (amended): `simulateGroupMonteCarlo` performs no input-length
validation whatsoever — for a team list of any length it runs normally
and returns exactly one result row per input team, in input order; there
is no failure path. -/
theorem c9_no_arity_check (teams : List SimTeam) (simulations : ℕ) (tape : ℕ → ℚ) :
    (simulateGroupMonteCarlo teams simulations tape).length = teams.length ∧
    (simulateGroupMonteCarlo teams simulations tape).map MCResult.code =
      teams.map SimTeam.code := by
  constructor
  · simp [simulateGroupMonteCarlo]
  · simp [simulateGroupMonteCarlo]

/-- C9 (counterexample): a 3-team input does *not* fail fast: the
simulator returns an ordinary 3-row result. -/
theorem c9_counterexample :
    (simulateGroupMonteCarlo
      [⟨"A", "A", 1500, false⟩, ⟨"B", "B", 1500, false⟩, ⟨"C", "C", 1500, false⟩]
      1 (fun _ => 1 / 2)).length = 3 ∧
    (simulateGroupMonteCarlo
      [⟨"A", "A", 1500, false⟩, ⟨"B", "B", 1500, false⟩, ⟨"C", "C", 1500, false⟩]
      1 (fun _ => 1 / 2)).map MCResult.code = ["A", "B", "C"] := by
  constructor
  · simp [simulateGroupMonteCarlo]
  · simp [simulateGroupMonteCarlo]

/-! ### Bracket-aware group simulation (`lib/bracketSimulator.js`,
`simulateGroup`) -/

/-- A `{ code, name, elo, isPlayoff }` team row of the tournament
simulator. -/
structure BTeam where
  code : String
  name : String
  elo : ℚ
  isPlayoff : Bool
deriving DecidableEq

/-- The `stats[code] = { points: 0, gd: 0, elo }` value of
`simulateGroup`. -/
structure GStat where
  points : ℕ
  gd : ℤ
  elo : ℚ
deriving DecidableEq

/-- A `{ code, points, gd, elo }` standings row produced by
`simulateGroup`'s `Object.entries(stats).map`. -/
structure Standing where
  code : String
  points : ℕ
  gd : ℤ
  elo : ℚ
deriving DecidableEq

/-- JS `obj[key] = v` on an insertion-ordered object: update in place if
the key exists, else append. -/
def setAssoc (l : List (String × GStat)) (key : String) (v : GStat) :
    List (String × GStat) :=
  if l.any (fun p => p.1 = key) then
    l.map (fun p => if p.1 = key then (p.1, v) else p)
  else l ++ [(key, v)]

/-- JS `obj[key].field op= ...` on an existing key. -/
def updAssoc (l : List (String × GStat)) (key : String) (f : GStat → GStat) :
    List (String × GStat) :=
  l.map (fun p => if p.1 = key then (p.1, f p.2) else p)

/-- The `teams.forEach(team => stats[team.code] = {...})` initialisation
of `simulateGroup`. -/
def initStats (teams : List BTeam) : List (String × GStat) :=
  teams.foldl (fun acc t => setAssoc acc t.code ⟨0, 0, t.elo⟩) []

/-- The match double loop of `simulateGroup`: 3/1/0 points plus a ±1 goal
difference per decisive match. -/
noncomputable def runBracketGroupMatches (tape : ℕ → ℚ) :
    List (BTeam × BTeam) → ℕ → List (String × GStat) →
      List (String × GStat) × ℕ
  | [], k, stats => (stats, k)
  | (a, b) :: rest, k, stats =>
    let stats' :=
      match simulateMatch a.elo b.elo (tape k) with
      | .win =>
        updAssoc (updAssoc stats a.code
          (fun s => { s with points := s.points + 3, gd := s.gd + 1 }))
          b.code (fun s => { s with gd := s.gd - 1 })
      | .loss =>
        updAssoc (updAssoc stats b.code
          (fun s => { s with points := s.points + 3, gd := s.gd + 1 }))
          a.code (fun s => { s with gd := s.gd - 1 })
      | .draw =>
        updAssoc (updAssoc stats a.code
          (fun s => { s with points := s.points + 1 }))
          b.code (fun s => { s with points := s.points + 1 })
    runBracketGroupMatches tape rest (k + 1) stats'

/-- The standings comparator of `simulateGroup` (and of the third-place
ranking): points descending, then goal difference, then Elo. -/
def cmp3 (a b : Standing) : ℚ :=
  if b.points ≠ a.points then (b.points : ℚ) - (a.points : ℚ)
  else if b.gd ≠ a.gd then (b.gd : ℚ) - (a.gd : ℚ)
  else b.elo - a.elo

/-- `simulateGroup(teams)` from `lib/bracketSimulator.js`: play all
pairings, then sort `Object.entries(stats)` by the 3-level comparator. -/
noncomputable def simulateGroup (teams : List BTeam) (tape : ℕ → ℚ) (k : ℕ) :
    List Standing × ℕ :=
  let run := runBracketGroupMatches tape (pairList teams) k (initStats teams)
  (jsSort cmp3 (run.1.map (fun p => ⟨p.1, p.2.points, p.2.gd, p.2.elo⟩)), run.2)

/-- The specification's 3-level ranking relation: `a` ranks no worse than
`b` by (points desc, goal-difference desc, rating desc). -/
def lex3GE (a b : Standing) : Prop :=
  b.points < a.points ∨
    (b.points = a.points ∧ (b.gd < a.gd ∨ (b.gd = a.gd ∧ b.elo ≤ a.elo)))

theorem cmp3_le_iff (a b : Standing) : cmp3 a b ≤ 0 ↔ lex3GE a b := by
  unfold cmp3 lex3GE
  by_cases hp : b.points = a.points
  · by_cases hg : b.gd = a.gd
    · rw [if_neg (not_not_intro hp), if_neg (not_not_intro hg)]
      constructor
      · intro h
        exact Or.inr ⟨hp, Or.inr ⟨hg, by linarith⟩⟩
      · rintro (h | ⟨-, h | ⟨-, h⟩⟩)
        · omega
        · omega
        · linarith
    · have hp' : ¬ b.points ≠ a.points := by simpa using hp
      rw [if_neg hp', if_pos hg]
      constructor
      · intro h
        refine Or.inr ⟨hp, Or.inl ?_⟩
        have : (b.gd : ℚ) ≤ (a.gd : ℚ) := by linarith
        have hle : b.gd ≤ a.gd := by exact_mod_cast this
        omega
      · rintro (h | ⟨-, h | ⟨hgd, -⟩⟩)
        · omega
        · have : (b.gd : ℚ) < (a.gd : ℚ) := by exact_mod_cast h
          linarith
        · exact absurd hgd hg
  · have hp' : b.points ≠ a.points := hp
    rw [if_pos hp']
    constructor
    · intro h
      refine Or.inl ?_
      have : (b.points : ℚ) ≤ (a.points : ℚ) := by linarith
      have hle : b.points ≤ a.points := by exact_mod_cast this
      omega
    · rintro (h | ⟨hpe, -⟩)
      · have : (b.points : ℚ) < (a.points : ℚ) := by exact_mod_cast h
        linarith
      · exact absurd hpe hp

theorem lex3GE_total (a b : Standing) : lex3GE a b ∨ lex3GE b a := by
  unfold lex3GE
  rcases lt_trichotomy a.points b.points with h | h | h
  · right; omega
  · rcases lt_trichotomy a.gd b.gd with hg | hg | hg
    · right; omega
    · rcases le_total b.elo a.elo with he | he
      · left; exact Or.inr ⟨h.symm, Or.inr ⟨hg.symm, he⟩⟩
      · right; exact Or.inr ⟨h, Or.inr ⟨hg, he⟩⟩
    · left; omega
  · left; omega

theorem lex3GE_trans (a b c : Standing) (h1 : lex3GE a b) (h2 : lex3GE b c) :
    lex3GE a c := by
  unfold lex3GE at h1 h2 ⊢
  rcases h1 with h1 | ⟨h1p, h1r⟩
  · left; omega
  · rcases h2 with h2 | ⟨h2p, h2r⟩
    · left; omega
    · rcases h1r with h1g | ⟨h1g, h1e⟩
      · right; exact ⟨by omega, by omega⟩
      · rcases h2r with h2g | ⟨h2g, h2e⟩
        · right; exact ⟨by omega, Or.inl (by omega)⟩
        · right; exact ⟨by omega, Or.inr ⟨by omega, le_trans h2e h1e⟩⟩

theorem simulateGroup_sorted (teams : List BTeam) (tape : ℕ → ℚ) (k : ℕ) :
    ((simulateGroup teams tape k).1).Pairwise lex3GE := by
  have hs := jsSort_sorted cmp3
    (fun a b => by
      rcases lex3GE_total a b with h | h
      · exact Or.inl ((cmp3_le_iff a b).mpr h)
      · exact Or.inr ((cmp3_le_iff b a).mpr h))
    (fun a b c hab hbc => (cmp3_le_iff a c).mpr
      (lex3GE_trans a b c ((cmp3_le_iff a b).mp hab) ((cmp3_le_iff b c).mp hbc)))
    ((runBracketGroupMatches tape (pairList teams) k (initStats teams)).1.map
      (fun p => ⟨p.1, p.2.points, p.2.gd, p.2.elo⟩))
  exact List.Pairwise.imp (fun h => (cmp3_le_iff _ _).mp h) hs

theorem updAssoc_keys (l : List (String × GStat)) (key : String) (f : GStat → GStat) :
    (updAssoc l key f).map Prod.fst = l.map Prod.fst := by
  simp only [updAssoc, List.map_map]
  congr 1
  funext p
  by_cases h : p.1 = key <;> simp [h]

theorem runBracketGroupMatches_keys (tape : ℕ → ℚ) (pairs : List (BTeam × BTeam)) :
    ∀ (k : ℕ) (stats : List (String × GStat)),
      ((runBracketGroupMatches tape pairs k stats).1).map Prod.fst =
        stats.map Prod.fst := by
  induction pairs with
  | nil => intro k stats; rfl
  | cons ab rest ih =>
    intro k stats
    obtain ⟨a, b⟩ := ab
    show ((runBracketGroupMatches tape rest (k + 1) _).1).map Prod.fst = _
    rw [ih]
    cases simulateMatch a.elo b.elo (tape k) <;>
      simp only [updAssoc_keys]

theorem setAssoc_of_not_mem (l : List (String × GStat)) (key : String) (v : GStat)
    (h : key ∉ l.map Prod.fst) : setAssoc l key v = l ++ [(key, v)] := by
  unfold setAssoc
  rw [if_neg]
  intro hany
  rw [List.any_eq_true] at hany
  obtain ⟨p, hp, hpeq⟩ := hany
  exact h (by
    simp only [List.mem_map]
    exact ⟨p, hp, by simpa using hpeq⟩)

theorem foldl_setAssoc_keys (teams : List BTeam) :
    ∀ acc : List (String × GStat),
      (∀ t ∈ teams, t.code ∉ acc.map Prod.fst) →
      (teams.map BTeam.code).Nodup →
      (teams.foldl (fun acc t => setAssoc acc t.code ⟨0, 0, t.elo⟩) acc).map Prod.fst =
        acc.map Prod.fst ++ teams.map BTeam.code := by
  induction teams with
  | nil => intro acc _ _; simp
  | cons t rest ih =>
    intro acc hni hnd
    rw [List.foldl_cons,
      setAssoc_of_not_mem acc t.code ⟨0, 0, t.elo⟩ (hni t (by simp))]
    rw [List.map_cons, List.nodup_cons] at hnd
    rw [ih (acc ++ [(t.code, (⟨0, 0, t.elo⟩ : GStat))])
      (fun u hu => by
        simp only [List.map_append, List.mem_append, List.map_cons, List.map_nil]
        rintro (h | h)
        · exact hni u (List.mem_cons_of_mem t hu) h
        · simp only [List.mem_singleton] at h
          exact hnd.1 (h ▸ List.mem_map_of_mem BTeam.code hu))
      hnd.2]
    simp

theorem initStats_keys (teams : List BTeam) (hnd : (teams.map BTeam.code).Nodup) :
    (initStats teams).map Prod.fst = teams.map BTeam.code := by
  unfold initStats
  rw [foldl_setAssoc_keys teams [] (by simp) hnd]
  simp

theorem simulateGroup_codes_perm (teams : List BTeam) (tape : ℕ → ℚ) (k : ℕ)
    (hnd : (teams.map BTeam.code).Nodup) :
    List.Perm (((simulateGroup teams tape k).1).map Standing.code)
      (teams.map BTeam.code) := by
  unfold simulateGroup
  have h1 := (jsSort_perm cmp3
    ((runBracketGroupMatches tape (pairList teams) k (initStats teams)).1.map
      (fun p => (⟨p.1, p.2.points, p.2.gd, p.2.elo⟩ : Standing)))).map Standing.code
  have h2 : ((runBracketGroupMatches tape (pairList teams) k (initStats teams)).1.map
      (fun p => (⟨p.1, p.2.points, p.2.gd, p.2.elo⟩ : Standing))).map Standing.code =
      ((runBracketGroupMatches tape (pairList teams) k (initStats teams)).1).map Prod.fst := by
    simp [List.map_map]
  rw [h2, runBracketGroupMatches_keys, initStats_keys teams hnd] at h1
  exact h1

theorem mcStandings_sorted (teams : List SimTeam) (iter : String → IterStat) :
    (mcStandings teams iter).Pairwise (fun x y : MCRow => y.points ≤ x.points) := by
  have hs := jsSort_sorted (fun a b : MCRow => (b.points : ℤ) - (a.points : ℤ))
    (fun a b => by
      show (b.points : ℤ) - (a.points : ℤ) ≤ 0 ∨ (a.points : ℤ) - (b.points : ℤ) ≤ 0
      omega)
    (fun a b c h1 h2 => by
      have h1' : (b.points : ℤ) - (a.points : ℤ) ≤ 0 := h1
      have h2' : (c.points : ℤ) - (b.points : ℤ) ≤ 0 := h2
      show (c.points : ℤ) - (a.points : ℤ) ≤ 0
      omega)
    (teams.map (fun t => ⟨t.code, (iter t.code).points⟩))
  refine hs.imp ?_
  intro x y h
  have h' : (y.points : ℤ) - (x.points : ℤ) ≤ 0 := h
  omega

/-- C6: the full-tournament simulator's `simulateGroup` ranks each
simulated group by points desc, then goal difference desc, then rating
desc, whereas the standalone group-only Monte Carlo ranks its per-iteration
standings by points only; both enumerate exactly the same 6 pairings per
4-team group (the same `i < j` double loop, shared here as `pairList`). -/
theorem c6_two_ranking_rules :
    (∀ (α : Type) (a b c d : α),
      pairList [a, b, c, d] = [(a, b), (a, c), (a, d), (b, c), (b, d), (c, d)]) ∧
    (∀ (teams : List BTeam) (tape : ℕ → ℚ) (k : ℕ),
      ((simulateGroup teams tape k).1).Pairwise lex3GE) ∧
    (∀ (teams : List BTeam) (tape : ℕ → ℚ) (k : ℕ),
      (teams.map BTeam.code).Nodup →
      List.Perm (((simulateGroup teams tape k).1).map Standing.code)
        (teams.map BTeam.code)) ∧
    (∀ (teams : List SimTeam) (iter : String → IterStat),
      (mcStandings teams iter).Pairwise (fun x y : MCRow => y.points ≤ x.points)) :=
  ⟨fun _ _ _ _ _ => rfl, simulateGroup_sorted,
   simulateGroup_codes_perm, mcStandings_sorted⟩

/-- Witness for C6 at a concrete 4-team group. -/
theorem c6_two_ranking_rules_witness :
    ((([⟨"A", "A", 1500, false⟩, ⟨"B", "B", 1500, false⟩,
        ⟨"C", "C", 1500, false⟩, ⟨"D", "D", 1500, false⟩] : List BTeam)).map
      BTeam.code).Nodup ∧
    List.Perm (((simulateGroup
        [⟨"A", "A", 1500, false⟩, ⟨"B", "B", 1500, false⟩,
         ⟨"C", "C", 1500, false⟩, ⟨"D", "D", 1500, false⟩] (fun _ => 1 / 2) 0).1).map
      Standing.code)
      (([⟨"A", "A", 1500, false⟩, ⟨"B", "B", 1500, false⟩,
         ⟨"C", "C", 1500, false⟩, ⟨"D", "D", 1500, false⟩] : List BTeam).map
        BTeam.code) :=
  ⟨by decide, c6_two_ranking_rules.2.2.1
    [⟨"A", "A", 1500, false⟩, ⟨"B", "B", 1500, false⟩,
     ⟨"C", "C", 1500, false⟩, ⟨"D", "D", 1500, false⟩] (fun _ => 1 / 2) 0 (by decide)⟩

/-! ### Full tournament simulation (`lib/bracketSimulator.js`,
`simulateTournament`) -/

/-- Parsed slot notation (`parseSlot`): `"3CEFHI"` becomes a third-place
pool of single-letter group names; otherwise `parseInt(slot[0])` and
`slot[1]` (either may fail to parse, giving `none` like JS `NaN` /
`undefined`). -/
inductive Slot where
  | pool (groups : List String)
  | posGroup (pos : Option ℕ) (group : Option String)
deriving DecidableEq

/-- JS `parseInt` on a single character. -/
def charDigit (c : Char) : Option ℕ :=
  if c.isDigit then some (c.toNat - 48) else none

/-- `parseSlot(slot)` from `lib/bracketSimulator.js`. -/
def parseSlot (s : String) : Slot :=
  match s.toList with
  | [] => .posGroup none none
  | c :: rest =>
    if c = '3' then .pool (rest.map Char.toString)
    else .posGroup (charDigit c) (rest.head?.map Char.toString)

/-- A third-place finisher `{ ...standings[2], group }`. -/
structure Third extends Standing where
  group : String
deriving DecidableEq

/-- A Round-of-32 match of the static structure: id plus two slot
notations. -/
structure TMatch where
  matchId : ℕ
  team1 : String
  team2 : String
deriving DecidableEq

/-- A later-round match: id plus its two predecessor match ids
(`prevMatches[0]`, `prevMatches[1]`). -/
structure KO2 where
  matchId : ℕ
  prev1 : ℕ
  prev2 : ℕ
deriving DecidableEq

/-- The static knockout structure `groupData.knockout`. -/
structure TKnockout where
  r32 : List TMatch
  r16 : List KO2
  qf : List KO2
  sf : List KO2
  final : List KO2
deriving DecidableEq

/-- JS `groupStandings[group]`; a missing group yields `[]` here (the
source would throw on the subsequent index access — the tournament
well-formedness predicate requires every referenced group to exist). -/
def lookupStandings (gs : List (String × List Standing)) (g : String) :
    List Standing :=
  ((gs.find? (fun p => p.1 = g)).map Prod.snd).getD []

/-- Resolution of `match.team1` in `simulateTournament`: *only* positions
1 and 2 are handled; a third-place pool (or anything else) in the first
slot is left unresolved, exactly as in the source where only
`slot1.pos === 2` and `slot1.pos === 1` have branches. -/
def resolveTeam1 (gs : List (String × List Standing)) (slot : Slot) :
    Option Standing :=
  match slot with
  | .posGroup (some 2) (some g) => (lookupStandings gs g)[1]?
  | .posGroup (some 1) (some g) => (lookupStandings gs g)[0]?
  | _ => none

/-- Remove the first element satisfying `p` (the `indexOf`/`splice` pair
of the source, which removes exactly the element `find` returned). -/
def removeFirst {α : Type} (p : α → Bool) : List α → List α
  | [] => []
  | x :: xs => if p x then xs else x :: removeFirst p xs

/-- Resolution of `match.team2`: positions 1/2 as for `team1`, and a
third-place pool consumes the first qualifying third-place team whose
origin group is in the pool. -/
def resolveTeam2 (gs : List (String × List Standing)) (quals : List Third)
    (slot : Slot) : Option Standing × List Third :=
  match slot with
  | .posGroup (some 2) (some g) => ((lookupStandings gs g)[1]?, quals)
  | .posGroup (some 1) (some g) => ((lookupStandings gs g)[0]?, quals)
  | .pool pool =>
    match quals.find? (fun t => pool.contains t.group) with
    | some t => (some t.toStanding, removeFirst (fun t' => pool.contains t'.group) quals)
    | none => (none, quals)
  | _ => (none, quals)

/-- `simulateKnockoutMatch(team1Elo, team2Elo)`: one random draw, returns
whether team 1 wins (no draws). -/
noncomputable def simulateKnockoutMatch (team1Elo team2Elo : ℚ) (rand : ℚ) : Bool :=
  if (rand : ℝ) < 1 / (1 + (10 : ℝ) ^ (((team2Elo : ℝ) - (team1Elo : ℝ)) / 400))
  then true else false

/-- The Round-of-32 loop (step 3 of `simulateTournament`): resolve both
slots (consuming third-place qualifiers), and if both have occupants play
the match, record the winner and credit it; otherwise skip the match
without error and without consuming a random draw. -/
noncomputable def playR32 (gs : List (String × List Standing)) (tape : ℕ → ℚ) :
    List TMatch → ℕ → List Third → List (ℕ × Standing) →
      List (ℕ × Standing) × List Third × ℕ
  | [], k, quals, acc => (acc, quals, k)
  | m :: rest, k, quals, acc =>
    let team1 := resolveTeam1 gs (parseSlot m.team1)
    let res2 := resolveTeam2 gs quals (parseSlot m.team2)
    match team1, res2.1 with
    | some t1, some t2 =>
      playR32 gs tape rest (k + 1) res2.2
        (acc ++ [(m.matchId, if simulateKnockoutMatch t1.elo t2.elo (tape k) then t1 else t2)])
    | _, _ => playR32 gs tape rest k res2.2 acc

/-- `r32Winners[id]` etc.: keyed lookup in a winners map. -/
def winnersLookup (w : List (ℕ × Standing)) (id : ℕ) : Option Standing :=
  (w.find? (fun p => p.1 = id)).map Prod.snd

/-- One of the later-round loops (steps 4-6): both predecessors must have
a recorded winner, else the match is skipped. -/
noncomputable def playRound (prev : List (ℕ × Standing)) (tape : ℕ → ℚ) :
    List KO2 → ℕ → List (ℕ × Standing) → List (ℕ × Standing) × ℕ
  | [], k, acc => (acc, k)
  | m :: rest, k, acc =>
    match winnersLookup prev m.prev1, winnersLookup prev m.prev2 with
    | some t1, some t2 =>
      playRound prev tape rest (k + 1)
        (acc ++ [(m.matchId, if simulateKnockoutMatch t1.elo t2.elo (tape k) then t1 else t2)])
    | _, _ => playRound prev tape rest k acc

/-- Step 7: the final is `knockout.final[0]` only; the champion gets the
win credit.  (An empty `final` list would crash the source; the
well-formedness predicate excludes it.) -/
noncomputable def playFinal (sfW : List (ℕ × Standing)) (tape : ℕ → ℚ) (k : ℕ) :
    List KO2 → Option Standing × ℕ
  | [] => (none, k)
  | fm :: _ =>
    match winnersLookup sfW fm.prev1, winnersLookup sfW fm.prev2 with
    | some t1, some t2 =>
      (some (if simulateKnockoutMatch t1.elo t2.elo (tape k) then t1 else t2), k + 1)
    | _, _ => (none, k)

/-- The third-place ranking and selection (step 2): sort all collected
third-place finishers by the same 3-level comparator and take the top 8. -/
def thirdQualifiers (thirds : List Third) : List Third :=
  (jsSort (fun a b => cmp3 a.toStanding b.toStanding) thirds).take 8

/-- Collect `standings[2]` (tagged with its group) from every group that
has one. -/
def thirdsOf (standings : List (String × List Standing)) : List Third :=
  standings.filterMap (fun p => (p.2[2]?).map (fun s => ⟨s, p.1⟩))

/-- Step 1: simulate every group in order, threading the random cursor. -/
noncomputable def iterGroups (tape : ℕ → ℚ) :
    List (String × List BTeam) → ℕ → List (String × List Standing) × ℕ
  | [], k => ([], k)
  | (g, teams) :: rest, k =>
    let one := simulateGroup teams tape k
    let more := iterGroups tape rest one.2
    ((g, one.1) :: more.1, more.2)

/-- Everything one iteration of the simulation loop produces, from which
every `teamStats` increment of the source is counted. -/
structure IterationResult where
  standings : List (String × List Standing)
  qualifiers : List Third
  r32W : List (ℕ × Standing)
  r16W : List (ℕ × Standing)
  qfW : List (ℕ × Standing)
  sfW : List (ℕ × Standing)
  champion : Option Standing

/-- One iteration of the `for (let sim = 0; ...)` loop of
`simulateTournament`. -/
noncomputable def runIteration (allTeams : List (String × List BTeam))
    (kn : TKnockout) (tape : ℕ → ℚ) (k : ℕ) : IterationResult × ℕ :=
  let gsk := iterGroups tape allTeams k
  let quals := thirdQualifiers (thirdsOf gsk.1)
  let r32res := playR32 gsk.1 tape kn.r32 gsk.2 quals []
  let r16res := playRound r32res.1 tape kn.r16 r32res.2.2 []
  let qfres := playRound r16res.1 tape kn.qf r16res.2 []
  let sfres := playRound qfres.1 tape kn.sf qfres.2 []
  let fin := playFinal sfres.1 tape sfres.2 kn.final
  (⟨gsk.1, quals, r32res.1, r16res.1, qfres.1, sfres.1, fin.1⟩, fin.2)

/-- The number of wins credited to `code` in a winners list (each entry
of `r32Winners`/… triggered exactly one `…Count++` in the source). -/
def countWins (w : List (ℕ × Standing)) (code : String) : ℕ :=
  w.countP (fun p => p.2.code = code)

/-- The `r32Count` increments of one iteration: one per top-2 group
finish, plus one per qualifying third-place selection. -/
def r32Delta (res : IterationResult) (code : String) : ℕ :=
  (res.standings.map (fun p => (p.2.take 2).countP (fun s => s.code = code))).sum +
    res.qualifiers.countP (fun t => t.code = code)

/-- The `positions[i]` increments of one iteration. -/
def posDelta (res : IterationResult) (code : String) (i : ℕ) : ℕ :=
  (res.standings.map (fun p =>
    if (p.2[i]?).any (fun s => s.code = code) then 1 else 0)).sum

/-- The `winCount` increment of one iteration. -/
def winDelta (res : IterationResult) (code : String) : ℕ :=
  match res.champion with
  | some c => if c.code = code then 1 else 0
  | none => 0

/-- The per-team cross-iteration counters of `teamStats`. -/
structure Counts where
  positions : ℕ → ℕ
  r32Count : ℕ
  r16Count : ℕ
  qfCount : ℕ
  sfCount : ℕ
  finalCount : ℕ
  winCount : ℕ

/-- Fold one iteration's increments into the accumulated counters. -/
def addIter (res : IterationResult) (st : String → Counts) : String → Counts :=
  fun code =>
    { positions := fun i => (st code).positions i + posDelta res code i
      r32Count := (st code).r32Count + r32Delta res code
      r16Count := (st code).r16Count + countWins res.r32W code
      qfCount := (st code).qfCount + countWins res.r16W code
      sfCount := (st code).sfCount + countWins res.qfW code
      finalCount := (st code).finalCount + countWins res.sfW code
      winCount := (st code).winCount + winDelta res code }

/-- The iteration loop of `simulateTournament`. -/
noncomputable def tournamentLoop (allTeams : List (String × List BTeam))
    (kn : TKnockout) (tape : ℕ → ℚ) :
    ℕ → ℕ → (String → Counts) → String → Counts
  | 0, _, st => st
  | n + 1, k, st =>
    let step := runIteration allTeams kn tape k
    tournamentLoop allTeams kn tape n step.2 (addIter step.1 st)

/-- `code.startsWith('UEFA_') || code.startsWith('FIFA_')`. -/
def isPlayoffCode (code : String) : Bool :=
  code.startsWith "UEFA_" || code.startsWith "FIFA_"

/-- JS `m[code] || 1400` over rational rating maps (0 is falsy). -/
def qRatingOr1400 (m : String → Option ℚ) (code : String) : ℚ :=
  match m code with
  | some r => if r = 0 then 1400 else r
  | none => 1400

/-- JS `teamNames[code] || code` (an empty name is falsy). -/
def jsNameOr (teamNames : String → Option String) (code : String) : String :=
  match teamNames code with
  | some n => if n = "" then code else n
  | none => code

/-- The team records built at the top of `simulateTournament`. -/
def buildTeam (ratings expectedElos : String → Option ℚ)
    (teamNames : String → Option String) (code : String) : BTeam :=
  if isPlayoffCode code then
    ⟨code, code.replace "_" " ", qRatingOr1400 expectedElos code, true⟩
  else
    ⟨code, jsNameOr teamNames code, qRatingOr1400 ratings code, false⟩

/-- `allTeams`: one `BTeam` list per group, in group order. -/
def allTeamsOf (groups : List (String × List String))
    (ratings expectedElos : String → Option ℚ)
    (teamNames : String → Option String) : List (String × List BTeam) :=
  groups.map (fun p => (p.1, p.2.map (buildTeam ratings expectedElos teamNames)))

/-- An output row of `simulateTournament`. -/
structure TournRow where
  code : String
  name : String
  elo : ℚ
  isPlayoff : Bool
  pos1Prob : ℚ
  pos2Prob : ℚ
  pos3Prob : ℚ
  pos4Prob : ℚ
  r32Prob : ℚ
  r16Prob : ℚ
  qfProb : ℚ
  sfProb : ℚ
  finalProb : ℚ
  winProb : ℚ

/-- `simulateTournament(groupData, ratings, expectedElos, teamNames,
simulations)` from `lib/bracketSimulator.js`: run all iterations, then
convert counts to probabilities grouped by original group and sorted by
`r32Prob` descending. -/
noncomputable def simulateTournament (groups : List (String × List String))
    (kn : TKnockout) (ratings expectedElos : String → Option ℚ)
    (teamNames : String → Option String) (simulations : ℕ) (tape : ℕ → ℚ) :
    List (String × List TournRow) :=
  let allTeams := allTeamsOf groups ratings expectedElos teamNames
  let stats := tournamentLoop allTeams kn tape simulations 0
    (fun _ => ⟨fun _ => 0, 0, 0, 0, 0, 0, 0⟩)
  allTeams.map (fun p =>
    (p.1, jsSort (fun a b : TournRow => b.r32Prob - a.r32Prob)
      (p.2.map (fun team =>
        let s := stats team.code
        { code := team.code, name := team.name, elo := team.elo
          isPlayoff := team.isPlayoff
          pos1Prob := (s.positions 0 : ℚ) / simulations
          pos2Prob := (s.positions 1 : ℚ) / simulations
          pos3Prob := (s.positions 2 : ℚ) / simulations
          pos4Prob := (s.positions 3 : ℚ) / simulations
          r32Prob := (s.r32Count : ℚ) / simulations
          r16Prob := (s.r16Count : ℚ) / simulations
          qfProb := (s.qfCount : ℚ) / simulations
          sfProb := (s.sfCount : ℚ) / simulations
          finalProb := (s.finalCount : ℚ) / simulations
          winProb := (s.winCount : ℚ) / simulations }))))

/-! ### C8: Round-of-32 slot resolution -/

/-- Concrete two-group standings for the C8 theorems. -/
def c8gs : List (String × List Standing) :=
  [("A", [⟨"a1", 9, 3, 1500⟩, ⟨"a2", 6, 1, 1500⟩, ⟨"a3", 3, 0, 1500⟩, ⟨"a4", 0, -4, 1500⟩]),
   ("B", [⟨"b1", 9, 3, 1500⟩, ⟨"b2", 6, 1, 1500⟩, ⟨"b3", 3, 0, 1500⟩, ⟨"b4", 0, -4, 1500⟩])]

/-- A qualifying third-place team from group A. -/
def c8quals : List Third := [⟨⟨"a3", 3, 0, 1500⟩, "A"⟩]

/-- C8 (counterexample): a `"3AB"` notation in the *first* slot of a
Round-of-32 match does not consume the matching qualifier and resolves to
no occupant — the match is skipped (winner list stays empty, qualifier
pool untouched, no random draw consumed) even though a qualifying
third-place team from the pool is available. -/
theorem c8_counterexample :
    resolveTeam1 c8gs (parseSlot "3AB") = none ∧
    (∃ q ∈ c8quals, q.group ∈ (["A", "B"] : List String)) ∧
    playR32 c8gs (fun _ => 1 / 2) [⟨1, "3AB", "1B"⟩] 0 c8quals [] =
      ([], c8quals, 0) := by
  refine ⟨by decide, ⟨⟨⟨"a3", 3, 0, 1500⟩, "A"⟩, by decide, by decide⟩, ?_⟩
  decide

/-- C8 (amended): `"1G"`/`"2G"` notations resolve to the group's winner /
runner-up in either slot; a `"3<pool>"` notation is resolved — consuming
the first qualifying third-place team whose origin group is in the pool —
*only in the second slot*, while in the first slot it yields no occupant;
with no matching qualifier the slot has no occupant; and any match with an
unoccupied slot is skipped without an error, recording no winner (hence no
round-reached credit) and consuming no random draw. -/
theorem c8_slot_resolution :
    (∀ rest : List Char,
      parseSlot (String.mk ('3' :: rest)) = .pool (rest.map Char.toString)) ∧
    (∀ gs pool, resolveTeam1 gs (.pool pool) = none) ∧
    (∀ gs (quals : List Third) g,
      resolveTeam1 gs (.posGroup (some 1) (some g)) = (lookupStandings gs g)[0]? ∧
      resolveTeam1 gs (.posGroup (some 2) (some g)) = (lookupStandings gs g)[1]? ∧
      resolveTeam2 gs quals (.posGroup (some 1) (some g)) =
        ((lookupStandings gs g)[0]?, quals) ∧
      resolveTeam2 gs quals (.posGroup (some 2) (some g)) =
        ((lookupStandings gs g)[1]?, quals)) ∧
    (∀ gs (quals : List Third) pool t,
      quals.find? (fun u => pool.contains u.group) = some t →
      resolveTeam2 gs quals (.pool pool) =
        (some t.toStanding, removeFirst (fun u => pool.contains u.group) quals)) ∧
    (∀ gs (quals : List Third) pool,
      quals.find? (fun u => pool.contains u.group) = none →
      resolveTeam2 gs quals (.pool pool) = (none, quals)) ∧
    (∀ gs tape (m : TMatch) rest k (quals : List Third) acc,
      resolveTeam1 gs (parseSlot m.team1) = none ∨
        (resolveTeam2 gs quals (parseSlot m.team2)).1 = none →
      playR32 gs tape (m :: rest) k quals acc =
        playR32 gs tape rest k (resolveTeam2 gs quals (parseSlot m.team2)).2 acc) := by
  refine ⟨fun rest => rfl, fun gs pool => rfl,
    fun gs quals g => ⟨rfl, rfl, rfl, rfl⟩, ?_, ?_, ?_⟩
  · intro gs quals pool t h
    simp only [resolveTeam2]
    rw [h]
  · intro gs quals pool h
    simp only [resolveTeam2]
    rw [h]
  · intro gs tape m rest k quals acc h
    show (match resolveTeam1 gs (parseSlot m.team1),
        (resolveTeam2 gs quals (parseSlot m.team2)).1 with
      | some t1, some t2 =>
        playR32 gs tape rest (k + 1) (resolveTeam2 gs quals (parseSlot m.team2)).2
          (acc ++ [(m.matchId,
            if simulateKnockoutMatch t1.elo t2.elo (tape k) then t1 else t2)])
      | _, _ =>
        playR32 gs tape rest k (resolveTeam2 gs quals (parseSlot m.team2)).2 acc) = _
    rcases h with h | h
    · rw [h]
    · rw [h]
      rcases hE : resolveTeam1 gs (parseSlot m.team1) with _ | t1 <;> rfl

/-- Witness for C8 (amended): the consumption equation, the no-qualifier
equation and the skip equation at concrete inputs. -/
theorem c8_slot_resolution_witness :
    ((c8quals.find? (fun u => (["A", "B"] : List String).contains u.group) =
        some ⟨⟨"a3", 3, 0, 1500⟩, "A"⟩) ∧
      resolveTeam2 c8gs c8quals (.pool ["A", "B"]) =
        (some ⟨"a3", 3, 0, 1500⟩,
          removeFirst (fun u => (["A", "B"] : List String).contains u.group) c8quals)) ∧
    ((c8quals.find? (fun u => (["Z"] : List String).contains u.group) = none) ∧
      resolveTeam2 c8gs c8quals (.pool ["Z"]) = (none, c8quals)) ∧
    ((resolveTeam1 c8gs (parseSlot "3AB") = none ∨
        (resolveTeam2 c8gs c8quals (parseSlot "1B")).1 = none) ∧
      playR32 c8gs (fun _ => 1 / 2) [⟨1, "3AB", "1B"⟩] 0 c8quals [] =
        playR32 c8gs (fun _ => 1 / 2) [] 0
          (resolveTeam2 c8gs c8quals (parseSlot "1B")).2 []) :=
  ⟨⟨by decide, c8_slot_resolution.2.2.2.1 c8gs c8quals ["A", "B"]
      ⟨⟨"a3", 3, 0, 1500⟩, "A"⟩ (by decide)⟩,
   ⟨by decide, c8_slot_resolution.2.2.2.2.1 c8gs c8quals ["Z"] (by decide)⟩,
   ⟨Or.inl (by decide), c8_slot_resolution.2.2.2.2.2 c8gs (fun _ => 1 / 2)
      ⟨1, "3AB", "1B"⟩ [] 0 c8quals [] (Or.inl (by decide))⟩⟩

/-! ### C7: third-place qualification -/

theorem cmp3_le_total (a b : Standing) : cmp3 a b ≤ 0 ∨ cmp3 b a ≤ 0 := by
  rcases lex3GE_total a b with h | h
  · exact Or.inl ((cmp3_le_iff a b).mpr h)
  · exact Or.inr ((cmp3_le_iff b a).mpr h)

theorem cmp3_le_trans (a b c : Standing) (hab : cmp3 a b ≤ 0) (hbc : cmp3 b c ≤ 0) :
    cmp3 a c ≤ 0 :=
  (cmp3_le_iff a c).mpr
    (lex3GE_trans a b c ((cmp3_le_iff a b).mp hab) ((cmp3_le_iff b c).mp hbc))

/-- C7: in every tournament iteration the qualifying third-place list is
exactly the top 8 of the sorted third-place finishers; with the full 12
third-place finishers present exactly 8 qualify, each qualifier ranks no
worse (under points desc, goal-difference desc, rating desc) than every
non-qualifier, and every qualifier is credited with reaching the Round
of 32 in that iteration.  Determinism is by construction: the selection is
a pure function of the simulated group standings. -/
theorem c7_third_place_selection :
    (∀ (allTeams : List (String × List BTeam)) (kn : TKnockout) (tape : ℕ → ℚ) (k : ℕ),
      (runIteration allTeams kn tape k).1.qualifiers =
        thirdQualifiers (thirdsOf (runIteration allTeams kn tape k).1.standings)) ∧
    (∀ thirds : List Third, thirds.length = 12 →
      (thirdQualifiers thirds).length = 8 ∧
      ∀ q ∈ thirdQualifiers thirds,
        ∀ r ∈ (jsSort (fun a b : Third => cmp3 a.toStanding b.toStanding) thirds).drop 8,
          lex3GE q.toStanding r.toStanding) ∧
    (∀ (res : IterationResult) (q : Third),
      q ∈ res.qualifiers → 1 ≤ r32Delta res q.code) := by
  refine ⟨fun allTeams kn tape k => rfl, ?_, ?_⟩
  · intro thirds h12
    have hperm := jsSort_perm (fun a b : Third => cmp3 a.toStanding b.toStanding) thirds
    have hlen : (jsSort (fun a b : Third => cmp3 a.toStanding b.toStanding) thirds).length = 12 := by
      rw [hperm.length_eq, h12]
    constructor
    · unfold thirdQualifiers
      rw [List.length_take, hlen]
      rfl
    · intro q hq r hr
      have hsorted := jsSort_sorted (fun a b : Third => cmp3 a.toStanding b.toStanding)
        (fun a b => cmp3_le_total a.toStanding b.toStanding)
        (fun a b c => cmp3_le_trans a.toStanding b.toStanding c.toStanding) thirds
      rw [← List.take_append_drop 8
        (jsSort (fun a b : Third => cmp3 a.toStanding b.toStanding) thirds)] at hsorted
      rcases List.pairwise_append.mp hsorted with ⟨-, -, hcross⟩
      exact (cmp3_le_iff _ _).mp (hcross q hq r hr)
  · intro res q hq
    unfold r32Delta
    have hpos : 0 < res.qualifiers.countP (fun t => t.code = q.code) :=
      List.countP_pos_iff.mpr ⟨q, hq, by simp⟩
    omega

/-- Twelve concrete third-place finishers for the C7 witness. -/
def c7thirds : List Third :=
  [⟨⟨"t1", 9, 2, 1500⟩, "A"⟩, ⟨⟨"t2", 8, 2, 1500⟩, "B"⟩, ⟨⟨"t3", 7, 2, 1500⟩, "C"⟩,
   ⟨⟨"t4", 6, 2, 1500⟩, "D"⟩, ⟨⟨"t5", 5, 2, 1500⟩, "E"⟩, ⟨⟨"t6", 5, 1, 1500⟩, "F"⟩,
   ⟨⟨"t7", 4, 2, 1500⟩, "G"⟩, ⟨⟨"t8", 4, 2, 1400⟩, "H"⟩, ⟨⟨"t9", 3, 2, 1500⟩, "I"⟩,
   ⟨⟨"t10", 2, 2, 1500⟩, "J"⟩, ⟨⟨"t11", 1, 2, 1500⟩, "K"⟩, ⟨⟨"t12", 0, 2, 1500⟩, "L"⟩]

/-- A one-qualifier iteration result for the C7 witness. -/
def c7res : IterationResult :=
  ⟨[], [⟨⟨"t1", 9, 2, 1500⟩, "A"⟩], [], [], [], [], none⟩

/-- Witness for C7 at the concrete 12 third-place finishers. -/
theorem c7_third_place_selection_witness :
    c7thirds.length = 12 ∧
    ((thirdQualifiers c7thirds).length = 8 ∧
      ∀ q ∈ thirdQualifiers c7thirds,
        ∀ r ∈ (jsSort (fun a b : Third => cmp3 a.toStanding b.toStanding) c7thirds).drop 8,
          lex3GE q.toStanding r.toStanding) ∧
    ((⟨⟨"t1", 9, 2, 1500⟩, "A"⟩ : Third) ∈ c7res.qualifiers ∧
      1 ≤ r32Delta c7res (Third.mk ⟨"t1", 9, 2, 1500⟩ "A").code) :=
  ⟨by decide, c7_third_place_selection.2.1 c7thirds (by decide),
   by decide, c7_third_place_selection.2.2 c7res ⟨⟨"t1", 9, 2, 1500⟩, "A"⟩ (by decide)⟩

/-! ### C10: monotone round counts.  Counting infrastructure. -/

theorem countP_le_one_of_pairwise {α : Type} {R : α → α → Prop} (l : List α)
    (P : α → Bool) (hpw : l.Pairwise R)
    (h : ∀ a b, R a b → P a = true → P b = true → False) : l.countP P ≤ 1 := by
  induction l with
  | nil => simp
  | cons a rest ih =>
    rw [List.countP_cons]
    rcases List.pairwise_cons.mp hpw with ⟨ha, hrest⟩
    by_cases hPa : P a = true
    · have hz : rest.countP P = 0 := by
        rw [List.countP_eq_zero]
        intro b hb hPb
        exact h a b (ha b hb) hPa hPb
      simp [hz, hPa]
    · simp only [hPa, if_false, add_zero]
      exact ih hrest

theorem two_mem_countP_ge {α : Type} (l : List α) (P : α → Bool) (a b : α)
    (ha : a ∈ l) (hb : b ∈ l) (hab : a ≠ b) (hPa : P a = true) (hPb : P b = true) :
    2 ≤ l.countP P := by
  obtain ⟨s, u, rfl⟩ := List.append_of_mem ha
  rw [List.countP_append, List.countP_cons, if_pos hPa]
  have hb' : b ∈ s ∨ b ∈ u := by
    rcases List.mem_append.mp hb with h | h
    · exact Or.inl h
    · rcases List.mem_cons.mp h with h | h
      · exact absurd h.symm hab
      · exact Or.inr h
  rcases hb' with h | h
  · have h1 : 0 < s.countP P := List.countP_pos_iff.mpr ⟨b, h, hPb⟩
    omega
  · have h1 : 0 < u.countP P := List.countP_pos_iff.mpr ⟨b, h, hPb⟩
    omega

theorem two_mem_map_sum_ge {α : Type} (l : List α) (f : α → ℕ) (a b : α)
    (ha : a ∈ l) (hb : b ∈ l) (hab : a ≠ b) (h1 : 1 ≤ f a) (h2 : 1 ≤ f b) :
    2 ≤ (l.map f).sum := by
  obtain ⟨s, u, rfl⟩ := List.append_of_mem ha
  rw [List.map_append, List.map_cons, List.sum_append, List.sum_cons]
  have hb' : b ∈ s ∨ b ∈ u := by
    rcases List.mem_append.mp hb with h | h
    · exact Or.inl h
    · rcases List.mem_cons.mp h with h | h
      · exact absurd h.symm hab
      · exact Or.inr h
  rcases hb' with h | h
  · have h3 : f b ≤ (s.map f).sum :=
      List.single_le_sum (fun x _ => Nat.zero_le x) _ (List.mem_map_of_mem f h)
    omega
  · have h3 : f b ≤ (u.map f).sum :=
      List.single_le_sum (fun x _ => Nat.zero_le x) _ (List.mem_map_of_mem f h)
    omega

theorem mem_map_sum_ge {α : Type} (l : List α) (f : α → ℕ) (a : α)
    (ha : a ∈ l) : f a ≤ (l.map f).sum :=
  List.single_le_sum (fun x _ => Nat.zero_le x) _ (List.mem_map_of_mem f ha)

theorem countP_eq_le_one_of_nodup (l : List String) (h : l.Nodup) (t : String) :
    l.countP (fun c => c = t) ≤ 1 := by
  induction l with
  | nil => simp
  | cons c rest ih =>
    rw [List.countP_cons]
    rcases List.nodup_cons.mp h with ⟨hc, hrest⟩
    by_cases hct : c = t
    · have hz : rest.countP (fun c => decide (c = t)) = 0 := by
        rw [List.countP_eq_zero]
        intro x hx hxt
        rw [decide_eq_true_eq] at hxt
        exact hc (by rw [← hct] at hxt; rw [hxt] at hx; exact hx)
      rw [hz, if_pos (by simpa using hct)]
    · rw [if_neg (by simpa using hct), add_zero]
      exact ih hrest

theorem removeFirst_countP_le {α : Type} (p q : α → Bool) (l : List α) :
    (removeFirst p l).countP q ≤ l.countP q := by
  induction l with
  | nil => simp [removeFirst]
  | cons a rest ih =>
    unfold removeFirst
    by_cases hpa : p a = true
    · rw [if_pos hpa, List.countP_cons]
      omega
    · rw [if_neg hpa, List.countP_cons, List.countP_cons]
      omega

theorem removeFirst_countP_found {α : Type} (p q : α → Bool) (l : List α) (x : α)
    (hfind : l.find? p = some x) (hq : q x = true) :
    (removeFirst p l).countP q + 1 = l.countP q := by
  induction l with
  | nil => simp at hfind
  | cons a rest ih =>
    by_cases hpa : p a = true
    · rw [List.find?_cons_of_pos _ hpa] at hfind
      injection hfind with hax
      subst hax
      unfold removeFirst
      rw [if_pos hpa, List.countP_cons, if_pos hq]
    · rw [List.find?_cons_of_neg _ (by simp [hpa])] at hfind
      unfold removeFirst
      rw [if_neg hpa, List.countP_cons, List.countP_cons]
      have := ih hfind
      omega

/-- Whether a Round-of-32 match has a *slot-resolved* occupant with code
`t` (a pool slot never slot-resolves). -/
def slotYields (gs : List (String × List Standing)) (t : String) (m : TMatch) : Bool :=
  (resolveTeam1 gs (parseSlot m.team1)).any (fun s => s.code = t) ||
  (match parseSlot m.team2 with
   | .pool _ => false
   | sl => (resolveTeam1 gs sl).any (fun s => s.code = t))

theorem resolveTeam2_nonpool (gs : List (String × List Standing)) (quals : List Third)
    (slot : Slot) (h : ∀ pool, slot ≠ .pool pool) :
    resolveTeam2 gs quals slot = (resolveTeam1 gs slot, quals) := by
  match slot with
  | .pool pool => exact absurd rfl (h pool)
  | .posGroup none g => rfl
  | .posGroup (some 0) g => cases g <;> rfl
  | .posGroup (some 1) g => cases g <;> rfl
  | .posGroup (some 2) g => cases g <;> rfl
  | .posGroup (some (n + 3)) g => cases g <;> rfl

theorem resolveTeam2_snd_countP_le (gs : List (String × List Standing))
    (quals : List Third) (slot : Slot) (q : Third → Bool) :
    ((resolveTeam2 gs quals slot).2).countP q ≤ quals.countP q := by
  match slot with
  | .pool pool =>
    simp only [resolveTeam2]
    rcases hf : quals.find? (fun u => pool.contains u.group) with _ | x <;> rw [hf] <;>
      first
        | exact le_refl (quals.countP q)
        | exact removeFirst_countP_le (fun u => pool.contains u.group) q quals
  | .posGroup none g => exact le_refl (quals.countP q)
  | .posGroup (some 0) g => cases g <;> exact le_refl (quals.countP q)
  | .posGroup (some 1) g => cases g <;> exact le_refl (quals.countP q)
  | .posGroup (some 2) g => cases g <;> exact le_refl (quals.countP q)
  | .posGroup (some (n + 3)) g => cases g <;> exact le_refl (quals.countP q)

theorem resolveTeam2_pool_consumed (gs : List (String × List Standing))
    (quals : List Third) (pool : List String) (s : Standing) (t : String)
    (h : (resolveTeam2 gs quals (.pool pool)).1 = some s) (hc : s.code = t) :
    ((resolveTeam2 gs quals (.pool pool)).2).countP (fun u => u.code = t) + 1 =
      quals.countP (fun u => u.code = t) := by
  simp only [resolveTeam2] at h ⊢
  rcases hf : quals.find? (fun u => pool.contains u.group) with _ | x
  · rw [hf] at h
    simp at h
  · rw [hf] at h ⊢
    have hxs : x.toStanding = s := by
      simpa using h
    have hxc : x.code = t := by
      rw [show x.code = x.toStanding.code from rfl, hxs, hc]
    exact removeFirst_countP_found _ _ quals x hf (by simp [hxc])

theorem countWins_append_single (acc : List (ℕ × Standing)) (id : ℕ) (w : Standing)
    (t : String) :
    countWins (acc ++ [(id, w)]) t = countWins acc t + (if w.code = t then 1 else 0) := by
  unfold countWins
  rw [List.countP_append]
  by_cases h : w.code = t <;> simp [List.countP_cons, h]

/-- Each win recorded by the Round-of-32 loop is accounted for by either a
slot-resolved occupancy or a consumed third-place qualifier. -/
theorem playR32_count_le (gs : List (String × List Standing)) (tape : ℕ → ℚ) (t : String) :
    ∀ (ms : List TMatch) (k : ℕ) (quals : List Third) (acc : List (ℕ × Standing)),
      countWins (playR32 gs tape ms k quals acc).1 t ≤
        countWins acc t + ms.countP (slotYields gs t) +
          quals.countP (fun u => u.code = t) := by
  intro ms
  induction ms with
  | nil =>
    intro k quals acc
    show countWins acc t ≤ _
    omega
  | cons m rest ih =>
    intro k quals acc
    have hsub := resolveTeam2_snd_countP_le gs quals (parseSlot m.team2)
      (fun u => u.code = t)
    have hcons : (m :: rest).countP (slotYields gs t) =
        rest.countP (slotYields gs t) + (if slotYields gs t m then 1 else 0) :=
      List.countP_cons _ _ _
    show countWins ((match resolveTeam1 gs (parseSlot m.team1),
        (resolveTeam2 gs quals (parseSlot m.team2)).1 with
      | some t1, some t2 =>
        playR32 gs tape rest (k + 1) (resolveTeam2 gs quals (parseSlot m.team2)).2
          (acc ++ [(m.matchId,
            if simulateKnockoutMatch t1.elo t2.elo (tape k) then t1 else t2)])
      | _, _ =>
        playR32 gs tape rest k (resolveTeam2 gs quals (parseSlot m.team2)).2 acc).1) t ≤ _
    rcases h1 : resolveTeam1 gs (parseSlot m.team1) with _ | t1
    · show countWins (playR32 gs tape rest k
          (resolveTeam2 gs quals (parseSlot m.team2)).2 acc).1 t ≤ _
      have hrec := ih k (resolveTeam2 gs quals (parseSlot m.team2)).2 acc
      omega
    · rcases h2 : (resolveTeam2 gs quals (parseSlot m.team2)).1 with _ | t2
      · show countWins (playR32 gs tape rest k
            (resolveTeam2 gs quals (parseSlot m.team2)).2 acc).1 t ≤ _
        have hrec := ih k (resolveTeam2 gs quals (parseSlot m.team2)).2 acc
        omega
      · show countWins (playR32 gs tape rest (k + 1)
            (resolveTeam2 gs quals (parseSlot m.team2)).2
            (acc ++ [(m.matchId,
              if simulateKnockoutMatch t1.elo t2.elo (tape k) then t1 else t2)])).1 t ≤ _
        have hrec := ih (k + 1) (resolveTeam2 gs quals (parseSlot m.team2)).2
          (acc ++ [(m.matchId,
            if simulateKnockoutMatch t1.elo t2.elo (tape k) then t1 else t2)])
        rw [countWins_append_single] at hrec
        by_cases hw : (if simulateKnockoutMatch t1.elo t2.elo (tape k) then t1 else t2).code = t
        · have hw12 : (if simulateKnockoutMatch t1.elo t2.elo (tape k) then t1 else t2) = t1 ∨
              (if simulateKnockoutMatch t1.elo t2.elo (tape k) then t1 else t2) = t2 := by
            by_cases hr : simulateKnockoutMatch t1.elo t2.elo (tape k) = true
            · exact Or.inl (if_pos hr)
            · exact Or.inr (if_neg hr)
          rcases hw12 with heq | heq
          · have ht1 : t1.code = t := by rw [← heq]; exact hw
            have hsy : slotYields gs t m = true := by
              unfold slotYields
              rw [h1]
              simp [ht1]
            rw [if_pos hw] at hrec
            rw [if_pos hsy] at hcons
            omega
          · have ht2 : t2.code = t := by rw [← heq]; exact hw
            generalize hslot : parseSlot m.team2 = sl at h2 hsub hrec ⊢
            rcases sl with pool | ⟨pos, grp⟩
            · have hcons2 := resolveTeam2_pool_consumed gs quals pool t2 t h2 ht2
              rw [if_pos hw] at hrec
              omega
            · have hnp := resolveTeam2_nonpool gs quals (Slot.posGroup pos grp)
                (fun pool hp => Slot.noConfusion hp)
              have hres1 : resolveTeam1 gs (Slot.posGroup pos grp) = some t2 := by
                have hfst := congrArg Prod.fst hnp
                rw [h2] at hfst
                exact hfst.symm
              have hsy : slotYields gs t m = true := by
                unfold slotYields
                rw [hslot]
                simp [hres1, ht2]
              have hq2 : (resolveTeam2 gs quals (Slot.posGroup pos grp)).2 = quals :=
                congrArg Prod.snd hnp
              rw [if_pos hw] at hrec
              rw [if_pos hsy] at hcons
              rw [hq2] at hrec ⊢
              omega
        · rw [if_neg hw] at hrec
          omega

/-- Total standings occurrences of a code across all groups. -/
def SC (gs : List (String × List Standing)) (t : String) : ℕ :=
  (gs.map (fun p => p.2.countP (fun s => s.code = t))).sum

/-- Top-2 standings occurrences of a code across all groups. -/
def take2sum (gs : List (String × List Standing)) (t : String) : ℕ :=
  (gs.map (fun p => (p.2.take 2).countP (fun s => s.code = t))).sum

/-- The winner/runner-up slot notations carried by a Round-of-32 match. -/
def pgSlots (m : TMatch) : List Slot :=
  [parseSlot m.team1, parseSlot m.team2].filter (fun s =>
    match s with
    | .posGroup (some p) (some _) => p == 1 || p == 2
    | _ => false)

/-- The claim's proviso: two distinct Round-of-32 matches never carry the
same group-position slot notation. -/
def slotDisj (m m' : TMatch) : Prop := ∀ s ∈ pgSlots m, s ∉ pgSlots m'

theorem resolveTeam1_shape (gs : List (String × List Standing)) (σ : Slot) (s : Standing)
    (h : resolveTeam1 gs σ = some s) :
    ∃ p g, σ = .posGroup (some p) (some g) ∧ (p = 1 ∨ p = 2) ∧
      (lookupStandings gs g)[p - 1]? = some s := by
  match σ with
  | .pool l => simp [resolveTeam1] at h
  | .posGroup none g => simp [resolveTeam1] at h
  | .posGroup (some p) none =>
    rcases p with _ | _ | _ | n <;> simp [resolveTeam1] at h
  | .posGroup (some p) (some g) =>
    rcases p with _ | _ | _ | n
    · simp [resolveTeam1] at h
    · exact ⟨1, g, rfl, Or.inl rfl, by simpa [resolveTeam1] using h⟩
    · exact ⟨2, g, rfl, Or.inr rfl, by simpa [resolveTeam1] using h⟩
    · simp [resolveTeam1] at h

theorem mem_pgSlots (m : TMatch) (σ : Slot)
    (hσ : σ = parseSlot m.team1 ∨ σ = parseSlot m.team2)
    (p : ℕ) (g : String) (hshape : σ = .posGroup (some p) (some g))
    (hp : p = 1 ∨ p = 2) : σ ∈ pgSlots m := by
  unfold pgSlots
  rw [List.mem_filter]
  constructor
  · rcases hσ with h | h <;> simp [h]
  · subst hshape
    rcases hp with rfl | rfl <;> rfl

theorem slotYields_exists (gs : List (String × List Standing)) (t : String) (m : TMatch)
    (h : slotYields gs t m = true) :
    ∃ σ s, σ ∈ pgSlots m ∧ resolveTeam1 gs σ = some s ∧ s.code = t := by
  unfold slotYields at h
  rw [Bool.or_eq_true] at h
  rcases h with h | h
  · rcases ho : resolveTeam1 gs (parseSlot m.team1) with _ | s
    · rw [ho] at h
      simp at h
    · rw [ho] at h
      have hs : s.code = t := by simpa using h
      obtain ⟨p, g, hshape, hp, -⟩ := resolveTeam1_shape gs _ s ho
      exact ⟨parseSlot m.team1, s,
        mem_pgSlots m _ (Or.inl rfl) p g hshape hp, ho, hs⟩
  · generalize hslot : parseSlot m.team2 = sl at h
    rcases sl with pool | ⟨pos, grp⟩
    · simp at h
    · have h' : (resolveTeam1 gs (Slot.posGroup pos grp)).any
          (fun s => s.code = t) = true := h
      rcases ho : resolveTeam1 gs (Slot.posGroup pos grp) with _ | s
      · rw [ho] at h'
        simp at h'
      · rw [ho] at h'
        have hs : s.code = t := by simpa using h'
        obtain ⟨p, g, hshape, hp, -⟩ := resolveTeam1_shape gs _ s ho
        exact ⟨Slot.posGroup pos grp, s,
          mem_pgSlots m _ (Or.inr hslot.symm) p g hshape hp, ho, hs⟩

theorem lookupStandings_cases (gs : List (String × List Standing)) (g : String) :
    lookupStandings gs g = [] ∨
      ∃ e, gs.find? (fun p => p.1 = g) = some e ∧ e.1 = g ∧
        lookupStandings gs g = e.2 := by
  unfold lookupStandings
  rcases hf : gs.find? (fun p => p.1 = g) with _ | e
  · left
    rw [hf]
    rfl
  · right
    refine ⟨e, hf, by simpa using List.find?_some hf, ?_⟩
    rw [hf]
    rfl

theorem slotYields_take2 (gs : List (String × List Standing)) (t : String) (m : TMatch)
    (h : slotYields gs t m = true) : 1 ≤ take2sum gs t := by
  obtain ⟨σ, s, hmem, hres, hcode⟩ := slotYields_exists gs t m h
  obtain ⟨p, g, hshape, hp, hget⟩ := resolveTeam1_shape gs σ s hres
  rcases lookupStandings_cases gs g with hl | ⟨e, hfind, hkey, hval⟩
  · rw [hl] at hget
    simp at hget
  · rw [hval] at hget
    have hi : p - 1 < 2 := by omega
    have hsmem : s ∈ e.2.take 2 := by
      have hgt : (e.2.take 2)[p - 1]? = some s := by
        rw [List.getElem?_take_of_lt hi]
        exact hget
      exact List.getElem?_mem hgt
    have hcnt : 1 ≤ (e.2.take 2).countP (fun s' => s'.code = t) :=
      List.countP_pos_iff.mpr ⟨s, hsmem, by simp [hcode]⟩
    exact le_trans hcnt (mem_map_sum_ge gs
      (fun p => (p.2.take 2).countP (fun s' => s'.code = t)) e
      (List.mem_of_find?_eq_some hfind))

theorem resolveTeam1_code_unique (gs : List (String × List Standing)) (t : String)
    (hSC : SC gs t ≤ 1) (σ₁ σ₂ : Slot) (s₁ s₂ : Standing)
    (h₁ : resolveTeam1 gs σ₁ = some s₁) (hc₁ : s₁.code = t)
    (h₂ : resolveTeam1 gs σ₂ = some s₂) (hc₂ : s₂.code = t) : σ₁ = σ₂ := by
  obtain ⟨p₁, g₁, rfl, hp₁, hget₁⟩ := resolveTeam1_shape gs σ₁ s₁ h₁
  obtain ⟨p₂, g₂, rfl, hp₂, hget₂⟩ := resolveTeam1_shape gs σ₂ s₂ h₂
  rcases lookupStandings_cases gs g₁ with hl | ⟨e₁, hfind₁, hkey₁, hval₁⟩
  · rw [hl] at hget₁
    simp at hget₁
  rcases lookupStandings_cases gs g₂ with hl | ⟨e₂, hfind₂, hkey₂, hval₂⟩
  · rw [hl] at hget₂
    simp at hget₂
  rw [hval₁] at hget₁
  rw [hval₂] at hget₂
  have hm₁ : e₁ ∈ gs := List.mem_of_find?_eq_some hfind₁
  have hm₂ : e₂ ∈ gs := List.mem_of_find?_eq_some hfind₂
  have hc₁' : 1 ≤ e₁.2.countP (fun s => s.code = t) :=
    List.countP_pos_iff.mpr ⟨s₁, List.getElem?_mem hget₁, by simp [hc₁]⟩
  have hc₂' : 1 ≤ e₂.2.countP (fun s => s.code = t) :=
    List.countP_pos_iff.mpr ⟨s₂, List.getElem?_mem hget₂, by simp [hc₂]⟩
  by_cases hg : g₁ = g₂
  · subst hg
    have hee : e₁ = e₂ := by
      rw [hfind₁] at hfind₂
      injection hfind₂
    subst hee
    by_cases hpp : p₁ = p₂
    · rw [hpp]
    · exfalso
      obtain ⟨ek, st⟩ := e₁
      simp only at hget₁ hget₂
      have h01 : st[0]? = some s₁ ∧ st[1]? = some s₂ ∨
          st[0]? = some s₂ ∧ st[1]? = some s₁ := by
        rcases hp₁ with rfl | rfl <;> rcases hp₂ with rfl | rfl <;> simp_all
      have hcnt2 : 2 ≤ st.countP (fun s => s.code = t) := by
        rcases st with _ | ⟨x, _ | ⟨y, r⟩⟩
        · rcases h01 with ⟨hx, -⟩ | ⟨hx, -⟩ <;> simp at hx
        · rcases h01 with ⟨-, hy⟩ | ⟨-, hy⟩ <;> simp at hy
        · have hxy : x.code = t ∧ y.code = t := by
            rcases h01 with ⟨hx, hy⟩ | ⟨hx, hy⟩ <;>
              simp only [List.getElem?_cons_zero, List.getElem?_cons_succ,
                Option.some.injEq] at hx hy
            · rw [hx, hy]
              exact ⟨hc₁, hc₂⟩
            · rw [hx, hy]
              exact ⟨hc₂, hc₁⟩
          rw [List.countP_cons, List.countP_cons, if_pos (by simp [hxy.2]),
            if_pos (by simp [hxy.1])]
          omega
      have hsum := mem_map_sum_ge gs
        (fun p => p.2.countP (fun s => s.code = t)) (ek, st) hm₁
      unfold SC at hSC
      simp only at hsum
      omega
  · exfalso
    have hne : e₁ ≠ e₂ := fun he => hg (by rw [← hkey₁, he, hkey₂])
    have := two_mem_map_sum_ge gs (fun p => p.2.countP (fun s => s.code = t))
      e₁ e₂ hm₁ hm₂ hne hc₁' hc₂'
    unfold SC at hSC
    omega

theorem slotYields_countP_le_one (gs : List (String × List Standing)) (t : String)
    (ms : List TMatch) (hSC : SC gs t ≤ 1) (hpw : ms.Pairwise slotDisj) :
    ms.countP (slotYields gs t) ≤ 1 :=
  countP_le_one_of_pairwise ms _ hpw (fun a b hR ha hb => by
    obtain ⟨σ, s, hm, hres, hc⟩ := slotYields_exists gs t a ha
    obtain ⟨σ', s', hm', hres', hc'⟩ := slotYields_exists gs t b hb
    have huniq : σ = σ' :=
      resolveTeam1_code_unique gs t hSC σ σ' s s' hres hc hres' hc'
    exact hR σ hm (huniq ▸ hm'))

/-- The total Round-of-32 winner credit of a team is bounded by its
Round-of-32 reach credit (`take2sum + consumed qualifiers`), which is
itself at most 1. -/
theorem playR32_wins_le (gs : List (String × List Standing)) (tape : ℕ → ℚ) (t : String)
    (ms : List TMatch) (k : ℕ) (quals : List Third)
    (hSC : SC gs t ≤ 1) (hpw : ms.Pairwise slotDisj)
    (hsum : take2sum gs t + quals.countP (fun u => u.code = t) ≤ 1) :
    countWins (playR32 gs tape ms k quals []).1 t ≤
      take2sum gs t + quals.countP (fun u => u.code = t) := by
  have hbound := playR32_count_le gs tape t ms k quals []
  have hzero : countWins ([] : List (ℕ × Standing)) t = 0 := rfl
  have hcp1 := slotYields_countP_le_one gs t ms hSC hpw
  by_cases h0 : ms.countP (slotYields gs t) = 0
  · omega
  · have hex : ∃ m ∈ ms, slotYields gs t m = true := by
      have : 0 < ms.countP (slotYields gs t) := by omega
      obtain ⟨m, hm, hy⟩ := List.countP_pos_iff.mp this
      exact ⟨m, hm, hy⟩
    obtain ⟨m, -, hy⟩ := hex
    have h2 := slotYields_take2 gs t m hy
    omega

/-! #### Third-place and standings counting -/

/-- All team codes of the static group lists, flattened. -/
def allCodes (allTeams : List (String × List BTeam)) : List String :=
  (allTeams.map (fun p => p.2.map BTeam.code)).join

theorem countP_take_le {α : Type} (n : ℕ) (l : List α) (q : α → Bool) :
    (l.take n).countP q ≤ l.countP q := by
  conv_rhs => rw [← List.take_append_drop n l]
  rw [List.countP_append]
  omega

theorem thirdQualifiers_countP_le (thirds : List Third) (q : Third → Bool) :
    (thirdQualifiers thirds).countP q ≤ thirds.countP q := by
  unfold thirdQualifiers
  calc ((jsSort (fun a b => cmp3 a.toStanding b.toStanding) thirds).take 8).countP q
      ≤ (jsSort (fun a b => cmp3 a.toStanding b.toStanding) thirds).countP q :=
        countP_take_le 8 _ q
    _ = thirds.countP q :=
        (jsSort_perm (fun a b => cmp3 a.toStanding b.toStanding) thirds).countP_eq q

theorem take2_third_group (l : List Standing) (t : String) :
    (l.take 2).countP (fun s => s.code = t) +
      (if (l[2]?).any (fun s => s.code = t) then 1 else 0) ≤
      l.countP (fun s => s.code = t) := by
  conv_rhs => rw [← List.take_append_drop 2 l]
  rw [List.countP_append]
  rcases h2 : l[2]? with _ | s
  · simp
  · by_cases hs : s.code = t
    · have hds : (l.drop 2)[0]? = some s := by
        rw [List.getElem?_drop]
        exact h2
      have h1 : 1 ≤ (l.drop 2).countP (fun s => s.code = t) :=
        List.countP_pos_iff.mpr ⟨s, List.getElem?_mem hds, by simp [hs]⟩
      rw [if_pos (by simp [hs])]
      omega
    · have h0 : ((some s).any fun s => decide (s.code = t)) = false := by
        simp [hs]
      rw [if_neg (by simp [h0]), add_zero]
      omega

theorem thirdsOf_cons_none (p : String × List Standing)
    (rest : List (String × List Standing)) (h : p.2[2]? = none) :
    thirdsOf (p :: rest) = thirdsOf rest := by
  unfold thirdsOf
  rw [List.filterMap_cons, h]
  rfl

theorem thirdsOf_cons_some (p : String × List Standing)
    (rest : List (String × List Standing)) (s : Standing) (h : p.2[2]? = some s) :
    thirdsOf (p :: rest) = ⟨s, p.1⟩ :: thirdsOf rest := by
  unfold thirdsOf
  rw [List.filterMap_cons, h]
  rfl

theorem take2_thirds_le (gs : List (String × List Standing)) (t : String) :
    take2sum gs t + (thirdsOf gs).countP (fun u => u.code = t) ≤ SC gs t := by
  induction gs with
  | nil => simp [take2sum, thirdsOf, SC]
  | cons p rest ih =>
    have hgrp := take2_third_group p.2 t
    unfold take2sum SC at ih ⊢
    rw [List.map_cons, List.sum_cons, List.map_cons, List.sum_cons]
    rcases h2 : p.2[2]? with _ | s
    · rw [thirdsOf_cons_none p rest h2]
      rw [h2] at hgrp
      simp only [Option.any_none, Bool.false_eq_true, if_false, add_zero] at hgrp
      omega
    · rw [thirdsOf_cons_some p rest s h2, List.countP_cons]
      rw [h2] at hgrp
      by_cases hs : s.code = t
      · rw [if_pos (by simp [hs])]
        rw [if_pos (by simp [hs])] at hgrp
        omega
      · rw [if_neg (by simp [hs]), add_zero]
        rw [if_neg (by simp [hs]), add_zero] at hgrp
        omega

theorem iterGroups_SC (tape : ℕ → ℚ) (t : String) :
    ∀ (allTeams : List (String × List BTeam)) (k : ℕ),
      (allCodes allTeams).Nodup →
      SC (iterGroups tape allTeams k).1 t =
        (allCodes allTeams).countP (fun c => c = t) := by
  intro allTeams
  induction allTeams with
  | nil =>
    intro k _
    rfl
  | cons p rest ih =>
    intro k hnd
    obtain ⟨g, teams⟩ := p
    have hnd' : ((teams.map BTeam.code) ++
        (rest.map (fun p => p.2.map BTeam.code)).join).Nodup := hnd
    have hnd1 : (teams.map BTeam.code).Nodup := hnd'.of_append_left
    have hnd2 : ((rest.map (fun p => p.2.map BTeam.code)).join).Nodup :=
      hnd'.of_append_right
    show SC ((g, (simulateGroup teams tape k).1) ::
        (iterGroups tape rest (simulateGroup teams tape k).2).1) t = _
    have hgoal : (allCodes ((g, teams) :: rest)).countP (fun c => c = t) =
        (teams.map BTeam.code).countP (fun c => c = t) +
          (allCodes rest).countP (fun c => c = t) := by
      show ((teams.map BTeam.code) ++
          (rest.map (fun p => p.2.map BTeam.code)).join).countP (fun c => c = t) = _
      rw [List.countP_append]
      rfl
    rw [hgoal]
    unfold SC
    rw [List.map_cons, List.sum_cons]
    have hperm := (simulateGroup_codes_perm teams tape k hnd1).countP_eq
      (fun c => c = t)
    have h1 : (simulateGroup teams tape k).1.countP (fun s => s.code = t) =
        (teams.map BTeam.code).countP (fun c => c = t) := by
      rw [← hperm, List.countP_map]
      rfl
    have h1' : (g, (simulateGroup teams tape k).1).2.countP (fun s => s.code = t) =
        (teams.map BTeam.code).countP (fun c => c = t) := h1
    have h2 := ih (simulateGroup teams tape k).2 hnd2
    unfold SC at h2
    omega

/-! #### Later knockout rounds -/

/-- Whether a later-round match has a recorded predecessor winner with
code `t`. -/
def koYields (prev : List (ℕ × Standing)) (t : String) (m : KO2) : Bool :=
  (winnersLookup prev m.prev1).any (fun s => s.code = t) ||
  (winnersLookup prev m.prev2).any (fun s => s.code = t)

/-- Single-elimination structure of a round: two distinct matches never
reference a common predecessor match id. -/
def refsDisj (m m' : KO2) : Prop :=
  m.prev1 ≠ m'.prev1 ∧ m.prev1 ≠ m'.prev2 ∧ m.prev2 ≠ m'.prev1 ∧ m.prev2 ≠ m'.prev2

theorem winnersLookup_mem (prev : List (ℕ × Standing)) (id : ℕ) (s : Standing)
    (h : winnersLookup prev id = some s) : (id, s) ∈ prev := by
  unfold winnersLookup at h
  rcases hf : prev.find? (fun p => p.1 = id) with _ | e
  · rw [hf] at h
    simp at h
  · rw [hf] at h
    rcases e with ⟨a, b⟩
    have hkey : a = id := by simpa using List.find?_some hf
    have hsnd : b = s := by simpa using h
    subst hkey
    subst hsnd
    exact List.mem_of_find?_eq_some hf

theorem countWins_pos_of_lookup (prev : List (ℕ × Standing)) (id : ℕ) (s : Standing)
    (t : String) (h : winnersLookup prev id = some s) (hc : s.code = t) :
    1 ≤ countWins prev t :=
  List.countP_pos_iff.mpr ⟨(id, s), winnersLookup_mem prev id s h, by simp [hc]⟩

theorem winnersLookup_id_unique (prev : List (ℕ × Standing)) (t : String)
    (hle : countWins prev t ≤ 1) (i₁ i₂ : ℕ) (s₁ s₂ : Standing)
    (h₁ : winnersLookup prev i₁ = some s₁) (hc₁ : s₁.code = t)
    (h₂ : winnersLookup prev i₂ = some s₂) (hc₂ : s₂.code = t) : i₁ = i₂ := by
  have hm₁ := winnersLookup_mem prev i₁ s₁ h₁
  have hm₂ := winnersLookup_mem prev i₂ s₂ h₂
  by_contra hne
  have hne' : (i₁, s₁) ≠ (i₂, s₂) := fun he => hne (congrArg Prod.fst he)
  have := two_mem_countP_ge prev (fun p => p.2.code = t) (i₁, s₁) (i₂, s₂)
    hm₁ hm₂ hne' (by simp [hc₁]) (by simp [hc₂])
  unfold countWins at hle
  omega

theorem koYields_exists (prev : List (ℕ × Standing)) (t : String) (m : KO2)
    (h : koYields prev t m = true) :
    ∃ i s, (i = m.prev1 ∨ i = m.prev2) ∧ winnersLookup prev i = some s ∧
      s.code = t := by
  unfold koYields at h
  rw [Bool.or_eq_true] at h
  rcases h with h | h
  · rcases ho : winnersLookup prev m.prev1 with _ | s
    · rw [ho] at h
      simp at h
    · rw [ho] at h
      exact ⟨m.prev1, s, Or.inl rfl, ho, by simpa using h⟩
  · rcases ho : winnersLookup prev m.prev2 with _ | s
    · rw [ho] at h
      simp at h
    · rw [ho] at h
      exact ⟨m.prev2, s, Or.inr rfl, ho, by simpa using h⟩

theorem koYields_countP_le_one (prev : List (ℕ × Standing)) (t : String)
    (ms : List KO2) (hle : countWins prev t ≤ 1) (hpw : ms.Pairwise refsDisj) :
    ms.countP (koYields prev t) ≤ 1 :=
  countP_le_one_of_pairwise ms _ hpw (fun a b hR ha hb => by
    obtain ⟨i, s, hi, hl, hc⟩ := koYields_exists prev t a ha
    obtain ⟨i', s', hi', hl', hc'⟩ := koYields_exists prev t b hb
    have hii : i = i' := winnersLookup_id_unique prev t hle i i' s s' hl hc hl' hc'
    obtain ⟨d11, d12, d21, d22⟩ := hR
    rcases hi with rfl | rfl
    · rcases hi' with rfl | rfl
      · exact d11 hii
      · exact d12 hii
    · rcases hi' with rfl | rfl
      · exact d21 hii
      · exact d22 hii)

theorem playRound_count_le (prev : List (ℕ × Standing)) (tape : ℕ → ℚ) (t : String) :
    ∀ (ms : List KO2) (k : ℕ) (acc : List (ℕ × Standing)),
      countWins (playRound prev tape ms k acc).1 t ≤
        countWins acc t + ms.countP (koYields prev t) := by
  intro ms
  induction ms with
  | nil =>
    intro k acc
    show countWins acc t ≤ _
    omega
  | cons m rest ih =>
    intro k acc
    have hcons : (m :: rest).countP (koYields prev t) =
        rest.countP (koYields prev t) + (if koYields prev t m then 1 else 0) :=
      List.countP_cons _ _ _
    show countWins ((match winnersLookup prev m.prev1, winnersLookup prev m.prev2 with
      | some t1, some t2 =>
        playRound prev tape rest (k + 1)
          (acc ++ [(m.matchId,
            if simulateKnockoutMatch t1.elo t2.elo (tape k) then t1 else t2)])
      | _, _ => playRound prev tape rest k acc).1) t ≤ _
    rcases h1 : winnersLookup prev m.prev1 with _ | t1
    · show countWins (playRound prev tape rest k acc).1 t ≤ _
      have hrec := ih k acc
      omega
    · rcases h2 : winnersLookup prev m.prev2 with _ | t2
      · show countWins (playRound prev tape rest k acc).1 t ≤ _
        have hrec := ih k acc
        omega
      · show countWins (playRound prev tape rest (k + 1)
            (acc ++ [(m.matchId,
              if simulateKnockoutMatch t1.elo t2.elo (tape k) then t1 else t2)])).1 t ≤ _
        have hrec := ih (k + 1) (acc ++ [(m.matchId,
          if simulateKnockoutMatch t1.elo t2.elo (tape k) then t1 else t2)])
        rw [countWins_append_single] at hrec
        by_cases hw : (if simulateKnockoutMatch t1.elo t2.elo (tape k)
            then t1 else t2).code = t
        · have hsy : koYields prev t m = true := by
            unfold koYields
            by_cases hr : simulateKnockoutMatch t1.elo t2.elo (tape k) = true
            · have ht1 : t1.code = t := by rw [if_pos hr] at hw; exact hw
              rw [h1]
              simp [ht1]
            · have ht2 : t2.code = t := by rw [if_neg hr] at hw; exact hw
              rw [h2]
              simp [ht2]
          rw [if_pos hw] at hrec
          rw [if_pos hsy] at hcons
          omega
        · rw [if_neg hw] at hrec
          omega

theorem playRound_wins_le (prev : List (ℕ × Standing)) (tape : ℕ → ℚ) (t : String)
    (ms : List KO2) (k : ℕ) (hle : countWins prev t ≤ 1) (hpw : ms.Pairwise refsDisj) :
    countWins (playRound prev tape ms k []).1 t ≤ countWins prev t := by
  have hbound := playRound_count_le prev tape t ms k []
  have hzero : countWins ([] : List (ℕ × Standing)) t = 0 := rfl
  have hcp1 := koYields_countP_le_one prev t ms hle hpw
  by_cases h0 : ms.countP (koYields prev t) = 0
  · omega
  · have hpos : 0 < ms.countP (koYields prev t) := by omega
    obtain ⟨m, hm, hy⟩ := List.countP_pos_iff.mp hpos
    obtain ⟨i, s, hi, hl, hc⟩ := koYields_exists prev t m hy
    have h1 := countWins_pos_of_lookup prev i s t hl hc
    omega

theorem playFinal_champ_le (sfW : List (ℕ × Standing)) (tape : ℕ → ℚ) (k : ℕ)
    (fins : List KO2) (t : String) :
    (match (playFinal sfW tape k fins).1 with
      | some c => if c.code = t then 1 else 0
      | none => 0) ≤ countWins sfW t := by
  match fins with
  | [] =>
    show (0 : ℕ) ≤ _
    omega
  | fm :: _ =>
    show (match (match winnersLookup sfW fm.prev1, winnersLookup sfW fm.prev2 with
      | some t1, some t2 =>
        (some (if simulateKnockoutMatch t1.elo t2.elo (tape k) then t1 else t2), k + 1)
      | _, _ => ((none : Option Standing), k)).1 with
      | some c => if c.code = t then 1 else 0
      | none => 0) ≤ _
    rcases h1 : winnersLookup sfW fm.prev1 with _ | t1
    · show (0 : ℕ) ≤ _
      omega
    · rcases h2 : winnersLookup sfW fm.prev2 with _ | t2
      · show (0 : ℕ) ≤ _
        omega
      · show (if (if simulateKnockoutMatch t1.elo t2.elo (tape k)
            then t1 else t2).code = t then 1 else 0) ≤ _
        by_cases hw : (if simulateKnockoutMatch t1.elo t2.elo (tape k)
            then t1 else t2).code = t
        · rw [if_pos hw]
          by_cases hr : simulateKnockoutMatch t1.elo t2.elo (tape k) = true
          · exact countWins_pos_of_lookup sfW fm.prev1 t1 t h1
              (by rw [if_pos hr] at hw; exact hw)
          · exact countWins_pos_of_lookup sfW fm.prev2 t2 t h2
              (by rw [if_neg hr] at hw; exact hw)
        · rw [if_neg hw]
          omega

/-! #### Well-formedness of the static tournament structure and the
per-iteration monotone chain -/

instance slotDisjDecidable : DecidableRel slotDisj := fun m m' =>
  inferInstanceAs (Decidable (∀ s ∈ pgSlots m, s ∉ pgSlots m'))

instance refsDisjDecidable : DecidableRel refsDisj := fun m m' =>
  inferInstanceAs (Decidable (_ ∧ _ ∧ _ ∧ _))

/-- Static well-formedness of the tournament input: distinct team codes
across groups, each group-position slot in at most one Round-of-32 match
(the claim's proviso), and single-elimination predecessor references in
the later rounds. -/
structure TournWF (allTeams : List (String × List BTeam)) (kn : TKnockout) : Prop where
  codesNodup : (allCodes allTeams).Nodup
  slotOnce : kn.r32.Pairwise slotDisj
  r16Once : kn.r16.Pairwise refsDisj
  qfOnce : kn.qf.Pairwise refsDisj
  sfOnce : kn.sf.Pairwise refsDisj

theorem runIteration_chain (allTeams : List (String × List BTeam)) (kn : TKnockout)
    (tape : ℕ → ℚ) (k : ℕ) (t : String) (hwf : TournWF allTeams kn) :
    winDelta (runIteration allTeams kn tape k).1 t ≤
      countWins (runIteration allTeams kn tape k).1.sfW t ∧
    countWins (runIteration allTeams kn tape k).1.sfW t ≤
      countWins (runIteration allTeams kn tape k).1.qfW t ∧
    countWins (runIteration allTeams kn tape k).1.qfW t ≤
      countWins (runIteration allTeams kn tape k).1.r16W t ∧
    countWins (runIteration allTeams kn tape k).1.r16W t ≤
      countWins (runIteration allTeams kn tape k).1.r32W t ∧
    countWins (runIteration allTeams kn tape k).1.r32W t ≤
      r32Delta (runIteration allTeams kn tape k).1 t ∧
    r32Delta (runIteration allTeams kn tape k).1 t ≤ 1 := by
  obtain ⟨hnd, hs32, h16, hqf, hsf⟩ := hwf
  have hSC : SC (iterGroups tape allTeams k).1 t ≤ 1 := by
    rw [iterGroups_SC tape t allTeams k hnd]
    exact countP_eq_le_one_of_nodup _ hnd t
  have hqle : (thirdQualifiers (thirdsOf (iterGroups tape allTeams k).1)).countP
      (fun u => u.code = t) ≤
      (thirdsOf (iterGroups tape allTeams k).1).countP (fun u => u.code = t) :=
    thirdQualifiers_countP_le _ _
  have h23 := take2_thirds_le (iterGroups tape allTeams k).1 t
  have hsum : take2sum (iterGroups tape allTeams k).1 t +
      (thirdQualifiers (thirdsOf (iterGroups tape allTeams k).1)).countP
        (fun u => u.code = t) ≤ 1 := by omega
  have hr32 : countWins (runIteration allTeams kn tape k).1.r32W t ≤
      r32Delta (runIteration allTeams kn tape k).1 t :=
    playR32_wins_le _ tape t kn.r32 _ _ hSC hs32 hsum
  have hdelta : r32Delta (runIteration allTeams kn tape k).1 t ≤ 1 := hsum
  have hle32 : countWins (runIteration allTeams kn tape k).1.r32W t ≤ 1 :=
    le_trans hr32 hdelta
  have hr16 : countWins (runIteration allTeams kn tape k).1.r16W t ≤
      countWins (runIteration allTeams kn tape k).1.r32W t :=
    playRound_wins_le _ tape t kn.r16 _ hle32 h16
  have hle16 : countWins (runIteration allTeams kn tape k).1.r16W t ≤ 1 :=
    le_trans hr16 hle32
  have hqf' : countWins (runIteration allTeams kn tape k).1.qfW t ≤
      countWins (runIteration allTeams kn tape k).1.r16W t :=
    playRound_wins_le _ tape t kn.qf _ hle16 hqf
  have hleqf : countWins (runIteration allTeams kn tape k).1.qfW t ≤ 1 :=
    le_trans hqf' hle16
  have hsf' : countWins (runIteration allTeams kn tape k).1.sfW t ≤
      countWins (runIteration allTeams kn tape k).1.qfW t :=
    playRound_wins_le _ tape t kn.sf _ hleqf hsf
  have hfin : winDelta (runIteration allTeams kn tape k).1 t ≤
      countWins (runIteration allTeams kn tape k).1.sfW t :=
    playFinal_champ_le _ tape _ kn.final t
  exact ⟨hfin, hsf', hqf', hr16, hr32, hdelta⟩

/-- The accumulated counters satisfy the monotone chain, with the
Round-of-32 count bounded by the number of iterations so far. -/
def ChainCounts (c : Counts) (n : ℕ) : Prop :=
  c.winCount ≤ c.finalCount ∧ c.finalCount ≤ c.sfCount ∧ c.sfCount ≤ c.qfCount ∧
    c.qfCount ≤ c.r16Count ∧ c.r16Count ≤ c.r32Count ∧ c.r32Count ≤ n

theorem tournamentLoop_chain (allTeams : List (String × List BTeam)) (kn : TKnockout)
    (tape : ℕ → ℚ) (t : String) (hwf : TournWF allTeams kn) :
    ∀ (n k : ℕ) (st : String → Counts) (m : ℕ), ChainCounts (st t) m →
      ChainCounts ((tournamentLoop allTeams kn tape n k st) t) (m + n) := by
  intro n
  induction n with
  | zero =>
    intro k st m h
    show ChainCounts (st t) (m + 0)
    rw [Nat.add_zero]
    exact h
  | succ n ih =>
    intro k st m h
    show ChainCounts ((tournamentLoop allTeams kn tape n
        (runIteration allTeams kn tape k).2
        (addIter (runIteration allTeams kn tape k).1 st)) t) (m + (n + 1))
    have hstep := runIteration_chain allTeams kn tape k t hwf
    have hadd : ChainCounts ((addIter (runIteration allTeams kn tape k).1 st) t)
        (m + 1) := by
      obtain ⟨c1, c2, c3, c4, c5, c6⟩ := h
      obtain ⟨d1, d2, d3, d4, d5, d6⟩ := hstep
      exact ⟨Nat.add_le_add c1 d1, Nat.add_le_add c2 d2, Nat.add_le_add c3 d3,
        Nat.add_le_add c4 d4, Nat.add_le_add c5 d5, Nat.add_le_add c6 d6⟩
    have hrest := ih (runIteration allTeams kn tape k).2
      (addIter (runIteration allTeams kn tape k).1 st) (m + 1) hadd
    rw [show m + (n + 1) = (m + 1) + n by omega]
    exact hrest

theorem natCast_div_le_div (a b n : ℕ) (h : a ≤ b) :
    (a : ℚ) / (n : ℚ) ≤ (b : ℚ) / (n : ℚ) := by
  rcases Nat.eq_zero_or_pos n with rfl | hn
  · simp
  · have hn' : (0 : ℚ) < (n : ℚ) := by exact_mod_cast hn
    exact (div_le_div_right hn').mpr (by exact_mod_cast h)

/-- C10: provided the static knockout structure places each group-position
slot in at most one Round-of-32 match (and is single-elimination in the
later rounds, over groups with distinct team codes), every output row of
`simulateTournament` satisfies, for every random draw tape,
winProb ≤ finalProb ≤ sfProb ≤ qfProb ≤ r16Prob ≤ r32Prob with every one
of these probabilities in [0, 1]. -/
theorem c10_reach_chain (groups : List (String × List String)) (kn : TKnockout)
    (ratings expectedElos : String → Option ℚ) (teamNames : String → Option String)
    (simulations : ℕ) (tape : ℕ → ℚ)
    (hwf : TournWF (allTeamsOf groups ratings expectedElos teamNames) kn)
    (hsim : 0 < simulations) :
    ∀ p ∈ simulateTournament groups kn ratings expectedElos teamNames simulations tape,
      ∀ row ∈ p.2,
        0 ≤ row.winProb ∧ row.winProb ≤ row.finalProb ∧ row.finalProb ≤ row.sfProb ∧
          row.sfProb ≤ row.qfProb ∧ row.qfProb ≤ row.r16Prob ∧
          row.r16Prob ≤ row.r32Prob ∧ row.r32Prob ≤ 1 := by
  intro p hp row hrow
  have hp' : p ∈ (allTeamsOf groups ratings expectedElos teamNames).map (fun q =>
      (q.1, jsSort (fun a b : TournRow => b.r32Prob - a.r32Prob)
        (q.2.map (fun team =>
          let s := tournamentLoop (allTeamsOf groups ratings expectedElos teamNames)
            kn tape simulations 0 (fun _ => ⟨fun _ => 0, 0, 0, 0, 0, 0, 0⟩) team.code
          { code := team.code, name := team.name, elo := team.elo
            isPlayoff := team.isPlayoff
            pos1Prob := (s.positions 0 : ℚ) / simulations
            pos2Prob := (s.positions 1 : ℚ) / simulations
            pos3Prob := (s.positions 2 : ℚ) / simulations
            pos4Prob := (s.positions 3 : ℚ) / simulations
            r32Prob := (s.r32Count : ℚ) / simulations
            r16Prob := (s.r16Count : ℚ) / simulations
            qfProb := (s.qfCount : ℚ) / simulations
            sfProb := (s.sfCount : ℚ) / simulations
            finalProb := (s.finalCount : ℚ) / simulations
            winProb := (s.winCount : ℚ) / simulations })))) := hp
  rw [List.mem_map] at hp'
  obtain ⟨q, hq, rfl⟩ := hp'
  have hrow2 : row ∈ jsSort (fun a b : TournRow => b.r32Prob - a.r32Prob)
      (q.2.map (fun team =>
        let s := tournamentLoop (allTeamsOf groups ratings expectedElos teamNames)
          kn tape simulations 0 (fun _ => ⟨fun _ => 0, 0, 0, 0, 0, 0, 0⟩) team.code
        { code := team.code, name := team.name, elo := team.elo
          isPlayoff := team.isPlayoff
          pos1Prob := (s.positions 0 : ℚ) / simulations
          pos2Prob := (s.positions 1 : ℚ) / simulations
          pos3Prob := (s.positions 2 : ℚ) / simulations
          pos4Prob := (s.positions 3 : ℚ) / simulations
          r32Prob := (s.r32Count : ℚ) / simulations
          r16Prob := (s.r16Count : ℚ) / simulations
          qfProb := (s.qfCount : ℚ) / simulations
          sfProb := (s.sfCount : ℚ) / simulations
          finalProb := (s.finalCount : ℚ) / simulations
          winProb := (s.winCount : ℚ) / simulations })) := hrow
  have hrow3 := (jsSort_perm (fun a b : TournRow => b.r32Prob - a.r32Prob) _).subset hrow2
  rw [List.mem_map] at hrow3
  obtain ⟨team, hteam, rfl⟩ := hrow3
  have hchain := tournamentLoop_chain (allTeamsOf groups ratings expectedElos teamNames)
    kn tape team.code hwf simulations 0 (fun _ => ⟨fun _ => 0, 0, 0, 0, 0, 0, 0⟩) 0
    ⟨Nat.le_refl 0, Nat.le_refl 0, Nat.le_refl 0, Nat.le_refl 0, Nat.le_refl 0,
      Nat.le_refl 0⟩
  obtain ⟨c1, c2, c3, c4, c5, c6⟩ := hchain
  rw [Nat.zero_add] at c6
  have hs : (0 : ℚ) < (simulations : ℚ) := by exact_mod_cast hsim
  refine ⟨?_, ?_, ?_, ?_, ?_, ?_, ?_⟩
  · exact div_nonneg (Nat.cast_nonneg _) (Nat.cast_nonneg _)
  · exact natCast_div_le_div _ _ _ c1
  · exact natCast_div_le_div _ _ _ c2
  · exact natCast_div_le_div _ _ _ c3
  · exact natCast_div_le_div _ _ _ c4
  · exact natCast_div_le_div _ _ _ c5
  · exact (div_le_one hs).mpr (by exact_mod_cast c6)

/-- A one-group, one-R32-match tournament input for the C10 witness. -/
def c10groups : List (String × List String) := [("A", ["a1", "a2", "a3", "a4"])]

/-- Its knockout structure: a single Round-of-32 match between the
group's winner and runner-up, and no later rounds. -/
def c10kn : TKnockout := ⟨[⟨1, "1A", "2A"⟩], [], [], [], []⟩

/-- Witness for C10 at a concrete one-group tournament. -/
theorem c10_reach_chain_witness :
    TournWF (allTeamsOf c10groups (fun _ => none) (fun _ => none) (fun _ => none))
      c10kn ∧ 0 < 1 ∧
    (∀ p ∈ simulateTournament c10groups c10kn (fun _ => none) (fun _ => none)
        (fun _ => none) 1 (fun _ => 0),
      ∀ row ∈ p.2,
        0 ≤ row.winProb ∧ row.winProb ≤ row.finalProb ∧ row.finalProb ≤ row.sfProb ∧
          row.sfProb ≤ row.qfProb ∧ row.qfProb ≤ row.r16Prob ∧
          row.r16Prob ≤ row.r32Prob ∧ row.r32Prob ≤ 1) :=
  ⟨⟨by decide, by decide, by decide, by decide, by decide⟩, by decide,
   c10_reach_chain c10groups c10kn (fun _ => none) (fun _ => none) (fun _ => none)
     1 (fun _ => 0)
     ⟨by decide, by decide, by decide, by decide, by decide⟩ (by decide)⟩

/-! ### Frontend bracket engine (`app.js`): overrides, slot resolution,
cumulative win probabilities -/

/-- One row of `sosData.groupSimulation[group]`. -/
structure GSimRow where
  code : String
  name : String
  elo : ℚ
  pos1Prob : ℚ
  pos2Prob : ℚ
deriving DecidableEq

/-- A bracket team record: a resolved slot occupant (`baseProb` present)
or a stored override `{ code, name, elo }` (`baseProb` absent). -/
structure BrTeam where
  code : String
  name : String
  elo : ℚ
  baseProb : Option ℚ
deriving DecidableEq

/-- `bracketOverrides`: a JS object keyed by numeric match ids.  Integer
keys of a JS object enumerate in ascending numeric order, so the state is
kept as an ascending-key association list. -/
abbrev OvState : Type := List (ℕ × BrTeam)

/-- `getOverride(matchId)` (the string/number key variants coincide under
numeric keys). -/
def getOverride (st : OvState) (matchId : ℕ) : Option BrTeam :=
  (List.find? (fun p => p.1 = matchId) st).map Prod.snd

/-- `bracketOverrides[mId] = v`: update in place or insert at the
ascending-key position. -/
def setOv : OvState → ℕ → BrTeam → OvState
  | [], matchId, v => [(matchId, v)]
  | (k, w) :: rest, matchId, v =>
    if matchId = k then (matchId, v) :: rest
    else if matchId < k then (matchId, v) :: (k, w) :: rest
    else (k, w) :: setOv rest matchId v

/-- `delete bracketOverrides[mId]`. -/
def delOv (st : OvState) (matchId : ℕ) : OvState :=
  List.filter (fun p => ¬(p.1 = matchId)) st

/-- `knockoutWinProb(elo1, elo2)` from `app.js`. -/
noncomputable def knockoutWinProb (elo1 elo2 : ℚ) : ℝ :=
  1 / (1 + (10 : ℝ) ^ (((elo2 : ℝ) - (elo1 : ℝ)) / 400))

/-- `resolveBracketSlot(slot)`: a `"3…"` slot yields the third-place
placeholder; otherwise `parseInt(slot[0])`/`slot[1]` select a group and
position, and the most likely team for that position is returned (the
data object `sosData.groupSimulation` is assumed present; `x || 0` on a
numeric field is the identity).  The `sortedByPos[0]` access on an empty
group (only reachable when the position parse fails or parses `0`) would
throw in the source and yields `none` here. -/
def resolveBracketSlot (gsim : String → Option (List GSimRow)) (slot : String) :
    Option BrTeam :=
  match slot.toList with
  | [] => none
  | c :: rest =>
    if c = '3' then
      some ⟨"3rd-" ++ String.mk rest, "3rd (" ++ String.mk rest ++ ")", 1600,
        some (67 / 100)⟩
    else
      match rest.head? with
      | none => none
      | some g =>
        match gsim (Char.toString g) with
        | none => none
        | some groupData =>
          if (charDigit c).any (fun p => groupData.length < p) then none
          else
            match jsSort (fun a b : GSimRow =>
                (if charDigit c = some 1 then b.pos1Prob else b.pos2Prob) -
                (if charDigit c = some 1 then a.pos1Prob else a.pos2Prob))
                groupData with
            | [] => none
            | team :: _ =>
              some ⟨team.code, team.name, team.elo,
                some (if charDigit c = some 1 then team.pos1Prob else team.pos2Prob)⟩

/-- A match of the frontend knockout structure (`match` id, the two slot
notations for Round-of-32 matches, and `prevMatches` for later rounds). -/
structure KMatch where
  matchId : ℕ
  team1 : String
  team2 : String
  prevMatches : Option (List ℕ)
deriving DecidableEq

/-- `sosData.worldCupGroups.knockout` as seen by the frontend. -/
structure BKnockout where
  r32 : List KMatch
  r16 : List KMatch
  qf : List KMatch
  sf : List KMatch
  final : List KMatch
deriving DecidableEq

/-- `findMatch(matchId, knockout)`. -/
def findMatch (matchId : ℕ) (kn : BKnockout) : Option KMatch :=
  List.find? (fun m => m.matchId = matchId)
    (kn.r32 ++ kn.r16 ++ kn.qf ++ kn.sf ++ kn.final)

/-- `getPossibleTeamsFromMatch(matchId, knockout)`: the override if
locked, the two resolved slots for Round-of-32 matches, and recursively
all teams of the predecessor matches otherwise (the `teams.push(...)`
loop is the flat concatenation over `prevMatches`). -/
def getPossibleTeamsFromMatch (gsim : String → Option (List GSimRow)) (st : OvState)
    (kn : BKnockout) : ℕ → ℕ → List BrTeam
  | 0, _ => []
  | fuel + 1, matchId =>
    match findMatch matchId kn with
    | none => []
    | some m =>
      match getOverride st matchId with
      | some ov => [ov]
      | none =>
        if matchId ≤ 16 then
          (match resolveBracketSlot gsim m.team1 with
           | some t1 => [t1]
           | none => []) ++
          (match resolveBracketSlot gsim m.team2 with
           | some t2 => [t2]
           | none => [])
        else
          match m.prevMatches with
          | some prevs =>
            prevs.flatMap (fun id => getPossibleTeamsFromMatch gsim st kn fuel id)
          | none => []

/-- One step of `getTeamElo`'s Round-of-32 scan: the slot's occupant's
elo if its code matches. -/
def slotEloIf (t : Option BrTeam) (teamCode : String) : Option ℚ :=
  match t with
  | some u => if u.code = teamCode then some u.elo else none
  | none => none

/-- The `for (const r32Match of r32Matches)` scan of `getTeamElo`. -/
def eloFromR32 (gsim : String → Option (List GSimRow)) (teamCode : String) :
    List KMatch → Option ℚ
  | [] => none
  | m :: rest =>
    match slotEloIf (resolveBracketSlot gsim m.team1) teamCode with
    | some e => some e
    | none =>
      match slotEloIf (resolveBracketSlot gsim m.team2) teamCode with
      | some e => some e
      | none => eloFromR32 gsim teamCode rest

/-- `getTeamElo(teamCode, matchId, knockout)`: search the Round-of-32
slots, then the stored overrides (in ascending match-id order, skipping a
falsy `0` elo), defaulting to 1500. -/
def getTeamElo (gsim : String → Option (List GSimRow)) (st : OvState)
    (kn : BKnockout) (teamCode : String) : ℚ :=
  match eloFromR32 gsim teamCode kn.r32 with
  | some e => e
  | none =>
    match List.find? (fun p => p.2.code = teamCode ∧ ¬(p.2.elo = 0)) st with
    | some p => p.2.elo
    | none => 1500

/-- The `for (const prevMatchId of match.prevMatches)` loop of
`getWeightedWinProb` that ends with the *last* predecessor match whose
possible teams do not include the team (`opponentPrevMatchId`). -/
def pickOpponentPrev (gsim : String → Option (List GSimRow)) (st : OvState)
    (kn : BKnockout) (fuel : ℕ) (teamCode : String) : List ℕ → Option ℕ
  | [] => none
  | id :: rest =>
    match pickOpponentPrev gsim st kn fuel teamCode rest with
    | some later => some later
    | none =>
      if (getPossibleTeamsFromMatch gsim st kn fuel id).any
          (fun t => t.code = teamCode) then none
      else some id

mutual

/-- `getCumulativeProbWin(teamCode, matchId, knockout)`: probability for a
team to win a specific match — `getProbOfReaching` if locked as winner, 0
if another team is locked, reach × single-opponent win probability for
Round-of-32 matches, and reach × `getWeightedWinProb` for later rounds. -/
noncomputable def getCumulativeProbWin (gsim : String → Option (List GSimRow))
    (st : OvState) (kn : BKnockout) : ℕ → String → ℕ → ℝ
  | 0, _, _ => 0
  | fuel + 1, teamCode, matchId =>
    match findMatch matchId kn with
    | none => 0
    | some m =>
      match getOverride st matchId with
      | some ov =>
        if ov.code = teamCode then
          getProbOfReaching gsim st kn fuel teamCode matchId
        else 0
      | none =>
        if getProbOfReaching gsim st kn fuel teamCode matchId = 0 then 0
        else if matchId ≤ 16 then
          match resolveBracketSlot gsim m.team1, resolveBracketSlot gsim m.team2 with
          | some t1, some t2 =>
            getProbOfReaching gsim st kn fuel teamCode matchId *
              knockoutWinProb (if t1.code = teamCode then t1 else t2).elo
                (if t1.code = teamCode then t2 else t1).elo
          | _, _ => getProbOfReaching gsim st kn fuel teamCode matchId
        else
          getProbOfReaching gsim st kn fuel teamCode matchId *
            getWeightedWinProb gsim st kn fuel teamCode
              (getTeamElo gsim st kn teamCode) matchId
  termination_by fuel teamCode matchId => (fuel, 0, 0)

/-- `getProbOfReaching(teamCode, matchId, knockout)`: 1 for a team sitting
in a Round-of-32 slot, else the first applicable predecessor rule. -/
noncomputable def getProbOfReaching (gsim : String → Option (List GSimRow))
    (st : OvState) (kn : BKnockout) : ℕ → String → ℕ → ℝ
  | 0, _, _ => 0
  | fuel + 1, teamCode, matchId =>
    match findMatch matchId kn with
    | none => 0
    | some m =>
      if matchId ≤ 16 then
        if (resolveBracketSlot gsim m.team1).any (fun t => t.code = teamCode) then 1
        else if (resolveBracketSlot gsim m.team2).any (fun t => t.code = teamCode) then 1
        else 0
      else
        match m.prevMatches with
        | some prevs => reachLoop gsim st kn fuel teamCode prevs
        | none => 0
  termination_by fuel teamCode matchId => (fuel, 0, 0)

/-- The `for (const prevMatchId of match.prevMatches)` loop of
`getProbOfReaching`. -/
noncomputable def reachLoop (gsim : String → Option (List GSimRow)) (st : OvState)
    (kn : BKnockout) : ℕ → String → List ℕ → ℝ
  | _, _, [] => 0
  | fuel, teamCode, id :: rest =>
    if (getOverride st id).any (fun ov => ov.code = teamCode) then
      getProbOfReaching gsim st kn fuel teamCode id
    else if (getPossibleTeamsFromMatch gsim st kn fuel id).any
        (fun t => t.code = teamCode) then
      getCumulativeProbWin gsim st kn fuel teamCode id
    else reachLoop gsim st kn fuel teamCode rest
  termination_by fuel teamCode l => (fuel, 1, l.length)

/-- `getWeightedWinProb(teamCode, teamElo, matchId, knockout)`: win
probability weighted over all possible opponents (0.5 when there is no
opponent path, no possible opponent, or no positive weight; a predecessor
match id `0` is falsy in the source). -/
noncomputable def getWeightedWinProb (gsim : String → Option (List GSimRow))
    (st : OvState) (kn : BKnockout) : ℕ → String → ℚ → ℕ → ℝ
  | fuel, teamCode, teamElo, matchId =>
    match findMatch matchId kn with
    | none => 1 / 2
    | some m =>
      match m.prevMatches with
      | none => 1 / 2
      | some prevs =>
        match pickOpponentPrev gsim st kn fuel teamCode prevs with
        | none => 1 / 2
        | some oid =>
          if oid = 0 then 1 / 2
          else
            match getPossibleTeamsFromMatch gsim st kn fuel oid with
            | [] => 1 / 2
            | opp :: opps =>
              if 0 < (weightLoop gsim st kn fuel teamCode teamElo oid (opp :: opps)).1
              then (weightLoop gsim st kn fuel teamCode teamElo oid (opp :: opps)).2 /
                (weightLoop gsim st kn fuel teamCode teamElo oid (opp :: opps)).1
              else 1 / 2
  termination_by fuel teamCode teamElo matchId => (fuel, 2, 0)

/-- The `for (const opponent of possibleOpponents)` accumulation of
`getWeightedWinProb`, returning `(totalWeight, weightedProb)`. -/
noncomputable def weightLoop (gsim : String → Option (List GSimRow)) (st : OvState)
    (kn : BKnockout) : ℕ → String → ℚ → ℕ → List BrTeam → ℝ × ℝ
  | _, _, _, _, [] => (0, 0)
  | fuel, teamCode, teamElo, oid, opp :: rest =>
    if 0 < getCumulativeProbWin gsim st kn fuel opp.code oid then
      ((weightLoop gsim st kn fuel teamCode teamElo oid rest).1 +
        getCumulativeProbWin gsim st kn fuel opp.code oid,
       (weightLoop gsim st kn fuel teamCode teamElo oid rest).2 +
        getCumulativeProbWin gsim st kn fuel opp.code oid *
          knockoutWinProb teamElo opp.elo)
    else weightLoop gsim st kn fuel teamCode teamElo oid rest
  termination_by fuel teamCode teamElo oid l => (fuel, 1, l.length)

end

/-- `findTeamInRound` inside `findUpstreamMatches`: the first match of the
round whose possible teams include the team. -/
def findTeamInRound (gsim : String → Option (List GSimRow)) (st : OvState)
    (kn : BKnockout) (fuel : ℕ) (teamCode : String) : List KMatch → Option KMatch
  | [] => none
  | m :: rest =>
    if (getPossibleTeamsFromMatch gsim st kn fuel m.matchId).any
        (fun t => t.code = teamCode) then some m
    else findTeamInRound gsim st kn fuel teamCode rest

/-- The round-by-round loop of `findUpstreamMatches` (break on reaching
the target match). -/
def upstreamScan (gsim : String → Option (List GSimRow)) (st : OvState)
    (kn : BKnockout) (fuel : ℕ) (teamCode : String) (target : ℕ) :
    List (List KMatch) → List ℕ
  | [] => []
  | round :: rest =>
    match findTeamInRound gsim st kn fuel teamCode round with
    | some m =>
      if m.matchId = target then [m.matchId]
      else m.matchId :: upstreamScan gsim st kn fuel teamCode target rest
    | none => upstreamScan gsim st kn fuel teamCode target rest

/-- `findUpstreamMatches(teamCode, targetMatchId, knockout)`. -/
def findUpstreamMatches (gsim : String → Option (List GSimRow)) (st : OvState)
    (kn : BKnockout) (fuel : ℕ) (teamCode : String) (target : ℕ) : List ℕ :=
  upstreamScan gsim st kn fuel teamCode target
    [kn.r32, kn.r16, kn.qf, kn.sf, kn.final]

/-- `clearDownstreamOverrides(matchId, knockout)`: delete the override of
every later-round match that (transitively) depends on the given match
(the `for (const match of allMatches)` loop threads the mutated state). -/
def clearDownstreamOverrides (kn : BKnockout) : ℕ → ℕ → OvState → OvState
  | 0, _, st => st
  | fuel + 1, matchId, st =>
    (kn.r16 ++ kn.qf ++ kn.sf ++ kn.final).foldl
      (fun s m =>
        if (m.prevMatches.getD []).contains matchId then
          clearDownstreamOverrides kn fuel m.matchId (delOv s m.matchId)
        else s) st

/-- The set of match ids visited by `clearDownstreamOverrides`. -/
def downIds (kn : BKnockout) : ℕ → ℕ → List ℕ
  | 0, _ => []
  | fuel + 1, matchId =>
    (kn.r16 ++ kn.qf ++ kn.sf ++ kn.final).flatMap
      (fun m =>
        if (m.prevMatches.getD []).contains matchId then
          m.matchId :: downIds kn fuel m.matchId
        else [])

/-- `handleBracketClick(matchId, team)`: a falsy team is ignored; if the
team is already the override of this match, every override along its
upstream path is deleted, otherwise an override `{ code, name, elo }` is
stored along the whole upstream path; downstream overrides are then
cleared.  No occupancy validation is performed. -/
def handleBracketClick (gsim : String → Option (List GSimRow)) (kn : BKnockout)
    (fuel : ℕ) (matchId : ℕ) (team : Option BrTeam) (st : OvState) : OvState :=
  match team with
  | none => st
  | some tm =>
    let st' :=
      if (getOverride st matchId).any (fun ov => ov.code = tm.code) then
        (findUpstreamMatches gsim st kn fuel tm.code matchId).foldl
          (fun s mId => delOv s mId) st
      else
        (findUpstreamMatches gsim st kn fuel tm.code matchId).foldl
          (fun s mId => setOv s mId ⟨tm.code, tm.name, tm.elo, none⟩) st
    clearDownstreamOverrides kn fuel matchId st'

/-! #### Override-state lemmas -/

theorem getOverride_setOv_self (st : OvState) (id : ℕ) (v : BrTeam) :
    getOverride (setOv st id v) id = some v := by
  induction st with
  | nil => simp [setOv, getOverride]
  | cons p rest ih =>
    obtain ⟨k, w⟩ := p
    unfold setOv
    by_cases hk : id = k
    · rw [if_pos hk]
      simp [getOverride]
    · rw [if_neg hk]
      by_cases hlt : id < k
      · rw [if_pos hlt]
        simp [getOverride]
      · rw [if_neg hlt]
        unfold getOverride at ih ⊢
        rw [List.find?_cons_of_neg _ (by simpa using fun h => hk h.symm)]
        exact ih

theorem getOverride_setOv_ne (st : OvState) (id id' : ℕ) (v : BrTeam)
    (h : ¬id' = id) : getOverride (setOv st id v) id' = getOverride st id' := by
  induction st with
  | nil =>
    simp only [setOv, getOverride]
    rw [List.find?_cons_of_neg _ (by simpa using fun hh => h hh.symm)]
  | cons p rest ih =>
    obtain ⟨k, w⟩ := p
    unfold setOv
    by_cases hk : id = k
    · rw [if_pos hk]
      unfold getOverride
      rw [List.find?_cons_of_neg _ (by simpa using fun hh => h hh.symm)]
      rw [List.find?_cons_of_neg _ (by
        simpa using fun hh => h (hh.symm.trans hk.symm) )]
    · rw [if_neg hk]
      by_cases hlt : id < k
      · rw [if_pos hlt]
        unfold getOverride
        rw [List.find?_cons_of_neg _ (by simpa using fun hh => h hh.symm)]
      · rw [if_neg hlt]
        unfold getOverride at ih ⊢
        by_cases hk' : k = id'
        · rw [List.find?_cons_of_pos _ (by simpa using hk'),
            List.find?_cons_of_pos _ (by simpa using hk')]
        · rw [List.find?_cons_of_neg _ (by simpa using hk'),
            List.find?_cons_of_neg _ (by simpa using hk')]
          exact ih

theorem delOv_setOv (st : OvState) (id : ℕ) (v : BrTeam) :
    delOv (setOv st id v) id = delOv st id := by
  induction st with
  | nil => simp [setOv, delOv]
  | cons p rest ih =>
    obtain ⟨k, w⟩ := p
    unfold setOv
    by_cases hk : id = k
    · rw [if_pos hk]
      unfold delOv
      rw [List.filter_cons, List.filter_cons]
      subst hk
      simp
    · rw [if_neg hk]
      by_cases hlt : id < k
      · rw [if_pos hlt]
        unfold delOv
        rw [List.filter_cons]
        simp
      · rw [if_neg hlt]
        unfold delOv at ih ⊢
        have hk' : ¬k = id := fun he => hk he.symm
        rw [List.filter_cons, List.filter_cons,
          if_pos (show (decide ¬((k, w).1 = id)) = true by simpa using hk'),
          if_pos (show (decide ¬((k, w).1 = id)) = true by simpa using hk'), ih]

theorem delOv_of_none (st : OvState) (id : ℕ) (h : getOverride st id = none) :
    delOv st id = st := by
  unfold getOverride at h
  rw [Option.map_eq_none'] at h
  rw [List.find?_eq_none] at h
  unfold delOv
  rw [List.filter_eq_self]
  intro p hp
  simpa using h p hp

theorem clearDown_noop (kn : BKnockout) :
    ∀ (fuel matchId : ℕ) (st : OvState),
      (∀ id ∈ downIds kn fuel matchId, getOverride st id = none) →
      clearDownstreamOverrides kn fuel matchId st = st := by
  intro fuel
  induction fuel with
  | zero =>
    intro matchId st _
    rfl
  | succ fuel ih =>
    intro matchId st h
    show (kn.r16 ++ kn.qf ++ kn.sf ++ kn.final).foldl _ st = st
    have inner : ∀ (l : List KMatch) (st : OvState),
        (∀ id ∈ l.flatMap (fun m =>
            if (m.prevMatches.getD []).contains matchId then
              m.matchId :: downIds kn fuel m.matchId else []),
          getOverride st id = none) →
        l.foldl (fun s m =>
          if (m.prevMatches.getD []).contains matchId then
            clearDownstreamOverrides kn fuel m.matchId (delOv s m.matchId)
          else s) st = st := by
      intro l
      induction l with
      | nil =>
        intro st _
        rfl
      | cons m rest ihl =>
        intro st h'
        rw [List.foldl_cons]
        by_cases hc : (m.prevMatches.getD []).contains matchId = true
        · rw [if_pos hc]
          have hm : getOverride st m.matchId = none := by
            apply h'
            rw [List.mem_flatMap]
            exact ⟨m, List.mem_cons_self m rest,
              by rw [if_pos hc]; exact List.mem_cons_self _ _⟩
          rw [delOv_of_none st m.matchId hm]
          rw [ih m.matchId st (fun id hid => h' id (by
            rw [List.mem_flatMap]
            exact ⟨m, List.mem_cons_self m rest,
              by rw [if_pos hc]; exact List.mem_cons_of_mem _ hid⟩))]
          exact ihl st (fun id hid => h' id (by
            rw [List.mem_flatMap] at hid ⊢
            obtain ⟨m', hm', hid'⟩ := hid
            exact ⟨m', List.mem_cons_of_mem _ hm', hid'⟩))
        · rw [if_neg hc]
          exact ihl st (fun id hid => h' id (by
            rw [List.mem_flatMap] at hid ⊢
            obtain ⟨m', hm', hid'⟩ := hid
            exact ⟨m', List.mem_cons_of_mem _ hm', hid'⟩))
    exact inner _ st h

theorem findTeamInRound_prop (gsim : String → Option (List GSimRow)) (st : OvState)
    (kn : BKnockout) (fuel : ℕ) (teamCode : String) :
    ∀ (l : List KMatch) (m : KMatch),
      findTeamInRound gsim st kn fuel teamCode l = some m →
      (getPossibleTeamsFromMatch gsim st kn fuel m.matchId).any
        (fun t => t.code = teamCode) = true := by
  intro l
  induction l with
  | nil =>
    intro m h
    simp [findTeamInRound] at h
  | cons m' rest ih =>
    intro m h
    unfold findTeamInRound at h
    by_cases hc : (getPossibleTeamsFromMatch gsim st kn fuel m'.matchId).any
        (fun t => t.code = teamCode) = true
    · rw [if_pos hc] at h
      injection h with h
      rw [← h]
      exact hc
    · rw [if_neg hc] at h
      exact ih m h

theorem mem_upstreamScan (gsim : String → Option (List GSimRow)) (st : OvState)
    (kn : BKnockout) (fuel : ℕ) (teamCode : String) (target : ℕ) :
    ∀ (rounds : List (List KMatch)) (id : ℕ),
      id ∈ upstreamScan gsim st kn fuel teamCode target rounds →
      (getPossibleTeamsFromMatch gsim st kn fuel id).any
        (fun t => t.code = teamCode) = true := by
  intro rounds
  induction rounds with
  | nil =>
    intro id h
    simp [upstreamScan] at h
  | cons round rest ih =>
    intro id h
    unfold upstreamScan at h
    rcases hf : findTeamInRound gsim st kn fuel teamCode round with _ | m
    · rw [hf] at h
      exact ih id h
    · rw [hf] at h
      have h' : id ∈ (if m.matchId = target then [m.matchId]
          else m.matchId :: upstreamScan gsim st kn fuel teamCode target rest) := h
      by_cases ht : m.matchId = target
      · rw [if_pos ht] at h'
        have hid : id = m.matchId := by simpa using h'
        rw [hid]
        exact findTeamInRound_prop gsim st kn fuel teamCode round m hf
      · rw [if_neg ht] at h'
        rcases List.mem_cons.mp h' with hid | hid
        · rw [hid]
          exact findTeamInRound_prop gsim st kn fuel teamCode round m hf
        · exact ih id hid

/-- C3 (amended): re-issuing the same lock is an unlock, and it restores
the pre-lock state exactly — *provided* the match had no override, no
downstream match had an override, the match is not its own downstream
dependent, and the team's resolved upstream path is just this match both
before locking and while locked.  (Without the no-downstream-override
proviso the first click's downstream clearing already destroys state the
second click cannot restore — see the counterexample.) -/
theorem c3_relock_unlocks (gsim : String → Option (List GSimRow)) (kn : BKnockout)
    (fuel M : ℕ) (tm : BrTeam) (s0 : OvState)
    (H1 : getOverride s0 M = none)
    (H2 : ∀ id ∈ downIds kn fuel M, getOverride s0 id = none)
    (H3 : M ∉ downIds kn fuel M)
    (Hup0 : findUpstreamMatches gsim s0 kn fuel tm.code M = [M])
    (Hup1 : findUpstreamMatches gsim (setOv s0 M ⟨tm.code, tm.name, tm.elo, none⟩)
      kn fuel tm.code M = [M]) :
    handleBracketClick gsim kn fuel M (some tm)
        (handleBracketClick gsim kn fuel M (some tm) s0) = s0 ∧
      ∀ (tc : String) (id f : ℕ),
        getCumulativeProbWin gsim (handleBracketClick gsim kn fuel M (some tm)
          (handleBracketClick gsim kn fuel M (some tm) s0)) kn f tc id =
        getCumulativeProbWin gsim s0 kn f tc id := by
  have hclick1 : handleBracketClick gsim kn fuel M (some tm) s0 =
      setOv s0 M ⟨tm.code, tm.name, tm.elo, none⟩ := by
    show clearDownstreamOverrides kn fuel M
      (if (getOverride s0 M).any (fun ov => ov.code = tm.code) then
        (findUpstreamMatches gsim s0 kn fuel tm.code M).foldl
          (fun s mId => delOv s mId) s0
      else
        (findUpstreamMatches gsim s0 kn fuel tm.code M).foldl
          (fun s mId => setOv s mId ⟨tm.code, tm.name, tm.elo, none⟩) s0) = _
    rw [H1]
    rw [if_neg (by simp)]
    rw [Hup0, List.foldl_cons, List.foldl_nil]
    apply clearDown_noop
    intro id hid
    have hne : ¬id = M := fun he => H3 (he ▸ hid)
    rw [getOverride_setOv_ne s0 M id _ hne]
    exact H2 id hid
  have hclick2 : handleBracketClick gsim kn fuel M (some tm)
      (handleBracketClick gsim kn fuel M (some tm) s0) = s0 := by
    rw [hclick1]
    show clearDownstreamOverrides kn fuel M
      (if (getOverride (setOv s0 M ⟨tm.code, tm.name, tm.elo, none⟩) M).any
          (fun ov => ov.code = tm.code) then
        (findUpstreamMatches gsim (setOv s0 M ⟨tm.code, tm.name, tm.elo, none⟩)
            kn fuel tm.code M).foldl (fun s mId => delOv s mId)
          (setOv s0 M ⟨tm.code, tm.name, tm.elo, none⟩)
      else
        (findUpstreamMatches gsim (setOv s0 M ⟨tm.code, tm.name, tm.elo, none⟩)
            kn fuel tm.code M).foldl
          (fun s mId => setOv s mId ⟨tm.code, tm.name, tm.elo, none⟩)
          (setOv s0 M ⟨tm.code, tm.name, tm.elo, none⟩)) = s0
    rw [getOverride_setOv_self]
    rw [if_pos (by simp)]
    rw [Hup1, List.foldl_cons, List.foldl_nil]
    rw [delOv_setOv, delOv_of_none s0 M H1]
    exact clearDown_noop kn fuel M s0 H2
  exact ⟨hclick2, fun tc id f => by rw [hclick2]⟩

/-! #### Concrete bracket data for the C3/C4 theorems -/

def c3gsim : String → Option (List GSimRow) :=
  fun g =>
    if g = "A" then some [⟨"X", "X", 1500, 1, 0⟩]
    else if g = "B" then some [⟨"Y", "Y", 1500, 1, 0⟩]
    else if g = "C" then some [⟨"Z", "Z", 1500, 1, 0⟩]
    else if g = "D" then some [⟨"W", "W", 1500, 1, 0⟩]
    else none

def c3kn : BKnockout :=
  ⟨[⟨1, "1A", "1B", none⟩, ⟨2, "1C", "1D", none⟩],
   [⟨17, "", "", some [1, 2]⟩], [], [], []⟩

def c3X : BrTeam := ⟨"X", "X", 1500, none⟩

def c3s0 : OvState := [(17, c3X)]

def c3Xt : BrTeam := ⟨"X", "X", 1500, some 1⟩
def c3Yt : BrTeam := ⟨"Y", "Y", 1500, some 1⟩
def c3Zt : BrTeam := ⟨"Z", "Z", 1500, some 1⟩
def c3Wt : BrTeam := ⟨"W", "W", 1500, some 1⟩

theorem c3hm1 : findMatch 1 c3kn = some ⟨1, "1A", "1B", none⟩ := by decide
theorem c3hm17 : findMatch 17 c3kn = some ⟨17, "", "", some [1, 2]⟩ := by decide
theorem c3hr1A : resolveBracketSlot c3gsim "1A" = some c3Xt := by decide
theorem c3hr1B : resolveBracketSlot c3gsim "1B" = some c3Yt := by decide

theorem knockoutWinProb_self (e : ℚ) : knockoutWinProb e e = 1 / 2 := by
  unfold knockoutWinProb
  rw [sub_self, zero_div, Real.rpow_zero]
  norm_num

theorem c3_gporX1 (st : OvState) (f : ℕ) :
    getProbOfReaching c3gsim st c3kn (f + 1) "X" 1 = 1 := by
  simp only [getProbOfReaching, c3hm1]
  norm_num [c3hr1A, c3Xt]

theorem c3_cumX1 (st : OvState) (f : ℕ) (h : getOverride st 1 = none) :
    getCumulativeProbWin c3gsim st c3kn (f + 1 + 1) "X" 1 = 1 / 2 := by
  simp only [getCumulativeProbWin, c3hm1, h, c3_gporX1]
  norm_num [c3hr1A, c3hr1B, c3Xt, c3Yt, knockoutWinProb_self]

theorem c3hm2 : findMatch 2 c3kn = some ⟨2, "1C", "1D", none⟩ := by decide
theorem c3hr1C : resolveBracketSlot c3gsim "1C" = some c3Zt := by decide
theorem c3hr1D : resolveBracketSlot c3gsim "1D" = some c3Wt := by decide

theorem c3_gporZ2 (st : OvState) (f : ℕ) :
    getProbOfReaching c3gsim st c3kn (f + 1) "Z" 2 = 1 := by
  simp only [getProbOfReaching, c3hm2]
  norm_num [c3hr1C, c3Zt]

theorem c3_gporW2 (st : OvState) (f : ℕ) :
    getProbOfReaching c3gsim st c3kn (f + 1) "W" 2 = 1 := by
  simp only [getProbOfReaching, c3hm2]
  norm_num [c3hr1C, c3hr1D, c3Zt, c3Wt]

theorem c3_cumZ2 (st : OvState) (f : ℕ) (h : getOverride st 2 = none) :
    getCumulativeProbWin c3gsim st c3kn (f + 1 + 1) "Z" 2 = 1 / 2 := by
  simp only [getCumulativeProbWin, c3hm2, h, c3_gporZ2]
  norm_num [c3hr1C, c3hr1D, c3Zt, c3Wt, knockoutWinProb_self]

theorem c3_cumW2 (st : OvState) (f : ℕ) (h : getOverride st 2 = none) :
    getCumulativeProbWin c3gsim st c3kn (f + 1 + 1) "W" 2 = 1 / 2 := by
  simp only [getCumulativeProbWin, c3hm2, h, c3_gporW2]
  norm_num [c3hr1C, c3hr1D, c3Zt, c3Wt, knockoutWinProb_self]
  rw [if_neg (show ¬("Z" : String) = "W" by decide),
    if_neg (show ¬("Z" : String) = "W" by decide)]
  exact knockoutWinProb_self 1500

theorem c3_poss_s0_1 (f : ℕ) :
    getPossibleTeamsFromMatch c3gsim c3s0 c3kn (f + 1) 1 = [c3Xt, c3Yt] := rfl

theorem c3_poss_nil_1 (f : ℕ) :
    getPossibleTeamsFromMatch c3gsim [] c3kn (f + 1) 1 = [c3Xt, c3Yt] := rfl

theorem c3_poss_nil_2 (f : ℕ) :
    getPossibleTeamsFromMatch c3gsim [] c3kn (f + 1) 2 = [c3Zt, c3Wt] := rfl

theorem c3_ov_s0_1 : getOverride c3s0 1 = none := by decide
theorem c3_ov_s0_17 : getOverride c3s0 17 = some c3X := by decide
theorem c3_ov_nil (id : ℕ) : getOverride ([] : OvState) id = none := rfl

theorem c3_reach17_s0 (f : ℕ) :
    reachLoop c3gsim c3s0 c3kn (f + 1 + 1) "X" [1, 2] = 1 / 2 := by
  simp only [reachLoop, c3_ov_s0_1, c3_poss_s0_1]
  rw [if_neg (by norm_num), if_pos (by norm_num [c3Xt])]
  exact c3_cumX1 c3s0 f c3_ov_s0_1

theorem c3_gporX17_s0 (f : ℕ) :
    getProbOfReaching c3gsim c3s0 c3kn (f + 1 + 1 + 1) "X" 17 = 1 / 2 := by
  simp only [getProbOfReaching, c3hm17]
  norm_num [c3_reach17_s0]

theorem c3_cumfinal_s0 (f : ℕ) :
    getCumulativeProbWin c3gsim c3s0 c3kn (f + 1 + 1 + 1 + 1) "X" 17 = 1 / 2 := by
  simp only [getCumulativeProbWin, c3hm17, c3_ov_s0_17]
  rw [if_pos (by decide)]
  exact c3_gporX17_s0 f

theorem c3_reach17_nil (f : ℕ) :
    reachLoop c3gsim [] c3kn (f + 1 + 1) "X" [1, 2] = 1 / 2 := by
  simp only [reachLoop, c3_ov_nil, c3_poss_nil_1]
  rw [if_neg (by norm_num), if_pos (by norm_num [c3Xt])]
  exact c3_cumX1 [] f (c3_ov_nil 1)

theorem c3_gporX17_nil (f : ℕ) :
    getProbOfReaching c3gsim [] c3kn (f + 1 + 1 + 1) "X" 17 = 1 / 2 := by
  simp only [getProbOfReaching, c3hm17]
  norm_num [c3_reach17_nil]

theorem c3_pick_nil (f : ℕ) :
    pickOpponentPrev c3gsim [] c3kn (f + 1) "X" [1, 2] = some 2 := rfl

theorem c3_weightLoop_nil (f : ℕ) :
    weightLoop c3gsim [] c3kn (f + 1 + 1) "X" 1500 2 [c3Zt, c3Wt] = (1, 1 / 2) := by
  simp only [weightLoop, c3Zt, c3Wt]
  rw [c3_cumZ2 [] f (c3_ov_nil 2), c3_cumW2 [] f (c3_ov_nil 2)]
  rw [if_pos (by norm_num : (0:ℝ) < 1 / 2), if_pos (by norm_num : (0:ℝ) < 1 / 2)]
  rw [knockoutWinProb_self]
  norm_num

theorem c3_gww_nil (f : ℕ) :
    getWeightedWinProb c3gsim [] c3kn (f + 1 + 1) "X" 1500 17 = 1 / 2 := by
  simp only [getWeightedWinProb, c3hm17, c3_pick_nil, c3_poss_nil_2]
  rw [c3_weightLoop_nil f]
  norm_num

theorem c3_teamelo_nil : getTeamElo c3gsim [] c3kn "X" = 1500 := rfl

theorem c3_cumfinal_nil (f : ℕ) :
    getCumulativeProbWin c3gsim [] c3kn (f + 1 + 1 + 1 + 1) "X" 17 = 1 / 4 := by
  simp only [getCumulativeProbWin, c3hm17, c3_ov_nil]
  rw [c3_gporX17_nil f, c3_teamelo_nil]
  rw [if_neg (by norm_num), if_neg (by norm_num)]
  rw [c3_gww_nil (f + 1)]
  norm_num

/-- C3: counterexample — with a pre-existing downstream override (match 17
locked to X), locking X at Round-of-32 match 1 and re-issuing the same
lock does *not* restore match 17's cumulative win probability: the first
click's downstream clearing already deleted the match-17 lock, so the
double-click ends in the empty state, where the probability is 1/4
instead of the original 1/2. -/
theorem c3_counterexample :
    getCumulativeProbWin c3gsim
        (handleBracketClick c3gsim c3kn 10 1 (some c3X)
          (handleBracketClick c3gsim c3kn 10 1 (some c3X) c3s0)) c3kn 4 "X" 17 ≠
      getCumulativeProbWin c3gsim c3s0 c3kn 4 "X" 17 := by
  rw [show handleBracketClick c3gsim c3kn 10 1 (some c3X)
      (handleBracketClick c3gsim c3kn 10 1 (some c3X) c3s0) = [] by decide]
  have h1 := c3_cumfinal_nil 0
  have h2 := c3_cumfinal_s0 0
  norm_num at h1 h2
  rw [h1, h2]
  norm_num

/-- Witness for the amended C3 theorem: a clean double-click at match 1
from the empty state returns the empty state. -/
theorem c3_relock_unlocks_witness :
    getOverride ([] : OvState) 1 = none ∧
    (∀ id ∈ downIds c3kn 10 1, getOverride ([] : OvState) id = none) ∧
    (1 ∉ downIds c3kn 10 1) ∧
    findUpstreamMatches c3gsim [] c3kn 10 c3X.code 1 = [1] ∧
    findUpstreamMatches c3gsim (setOv [] 1 ⟨c3X.code, c3X.name, c3X.elo, none⟩)
      c3kn 10 c3X.code 1 = [1] ∧
    (handleBracketClick c3gsim c3kn 10 1 (some c3X)
        (handleBracketClick c3gsim c3kn 10 1 (some c3X) []) = [] ∧
      ∀ (tc : String) (id f : ℕ),
        getCumulativeProbWin c3gsim (handleBracketClick c3gsim c3kn 10 1 (some c3X)
          (handleBracketClick c3gsim c3kn 10 1 (some c3X) [])) c3kn f tc id =
        getCumulativeProbWin c3gsim [] c3kn f tc id) :=
  ⟨by decide, by decide, by decide, by decide, by decide,
   c3_relock_unlocks c3gsim c3kn 10 1 c3X [] (by decide) (by decide) (by decide)
     (by decide) (by decide)⟩

/-- C4 (amended): `handleBracketClick` performs no occupancy validation —
for a team that is not a possible occupant of the match (and not its
current override), the click is *not* rejected: the state still becomes
the downstream-cleared result of locking the team along its own resolved
upstream path (which never includes the clicked match itself). -/
theorem c4_no_occupancy_check (gsim : String → Option (List GSimRow)) (kn : BKnockout)
    (fuel M : ℕ) (tm : BrTeam) (st : OvState)
    (hno : (getPossibleTeamsFromMatch gsim st kn fuel M).all
      (fun t => ¬(t.code = tm.code)) = true)
    (hov : (getOverride st M).any (fun ov => ov.code = tm.code) = false) :
    M ∉ findUpstreamMatches gsim st kn fuel tm.code M ∧
    handleBracketClick gsim kn fuel M (some tm) st =
      clearDownstreamOverrides kn fuel M
        ((findUpstreamMatches gsim st kn fuel tm.code M).foldl
          (fun s mId => setOv s mId ⟨tm.code, tm.name, tm.elo, none⟩) st) := by
  constructor
  · intro hmem
    have hpos := mem_upstreamScan gsim st kn fuel tm.code M
      [kn.r32, kn.r16, kn.qf, kn.sf, kn.final] M hmem
    rw [List.any_eq_true] at hpos
    obtain ⟨t, ht, hc⟩ := hpos
    rw [List.all_eq_true] at hno
    have h2 := hno t ht
    simp only [decide_eq_true_eq] at hc h2
    exact h2 hc
  · show clearDownstreamOverrides kn fuel M
      (if (getOverride st M).any (fun ov => ov.code = tm.code) then
        (findUpstreamMatches gsim st kn fuel tm.code M).foldl
          (fun s mId => delOv s mId) st
      else
        (findUpstreamMatches gsim st kn fuel tm.code M).foldl
          (fun s mId => setOv s mId ⟨tm.code, tm.name, tm.elo, none⟩) st) = _
    rw [hov]
    rw [if_neg (by simp)]

/-- C4: counterexample — clicking team X at match 2, which X cannot
occupy (its possible occupants are Z and W), is not rejected: it mutates
the empty override state, locking X into its own Round-of-32 match. -/
theorem c4_counterexample :
    (getPossibleTeamsFromMatch c3gsim [] c3kn 10 2).all
        (fun t => ¬(t.code = "X")) = true ∧
      handleBracketClick c3gsim c3kn 10 2 (some c3X) [] ≠ [] := by
  decide

/-- Witness for the amended C4 theorem at the concrete bracket. -/
theorem c4_no_occupancy_check_witness :
    ((getPossibleTeamsFromMatch c3gsim [] c3kn 10 2).all
      (fun t => ¬(t.code = c3X.code)) = true) ∧
    ((getOverride ([] : OvState) 2).any (fun ov => ov.code = c3X.code) = false) ∧
    (2 ∉ findUpstreamMatches c3gsim [] c3kn 10 c3X.code 2 ∧
      handleBracketClick c3gsim c3kn 10 2 (some c3X) [] =
        clearDownstreamOverrides c3kn 10 2
          ((findUpstreamMatches c3gsim [] c3kn 10 c3X.code 2).foldl
            (fun s mId => setOv s mId ⟨c3X.code, c3X.name, c3X.elo, none⟩) [])) :=
  ⟨by decide, by decide,
   c4_no_occupancy_check c3gsim c3kn 10 2 c3X [] (by decide) (by decide)⟩

end WorldCupSoS
